import Mathlib

/-!
# echo_pipe: named-pipe bridge (src/pipe/echo_pipe.cpp)

A shallow embedding of the exported functions `ConnectPipe`, `WritePipeW`,
`WritePipe`, `ReadPipeLine` and `ClosePipe`.

The Win32 calls are the environment of the program.  Each call is a function
on an explicit world state `Os`; what the operating system answers (wait
succeeded or not, the handle an open produced, how many bytes a write took,
whether a one-byte read delivered a byte) is an input of the embedded
function.  Every call is appended to `Os.log`, so that "no call was issued"
is a statement about the log.

Bytes and UTF-16 code units are natural numbers.  `INT_PTR` handles and `int`
values are integers; the two 32-bit casts of the source (`(DWORD)` and
`(int)`) are explicit.
-/

namespace EchoPipe

/-! ## Machine integers -/

/-- The value of `(INT_PTR)INVALID_HANDLE_VALUE`. -/
def INVALID_HANDLE_VALUE : Int := -1

/-- The cast `(DWORD)x`: reduction modulo `2^32`. -/
def toDWORD (x : Int) : Nat := (x % 2 ^ 32).toNat

/-- The cast `(int)d` of a `DWORD`: two's complement reading of the low 32 bits. -/
def toInt32 (d : Nat) : Int :=
  if d % 2 ^ 32 < 2 ^ 31 then ((d % 2 ^ 32 : Nat) : Int) else ((d % 2 ^ 32 : Nat) : Int) - 2 ^ 32

/-- The newline byte, `'\n'`. -/
def NL : Nat := 10

/-- The characters of a NUL-terminated string: everything before the first `0`. -/
def cstr (mem : List Nat) : List Nat := mem.takeWhile (fun c => c != 0)

/-- The C library `strlen`. -/
def strlen (mem : List Nat) : Nat := (cstr mem).length

/-! ## The operating system -/

/-- One Win32 call, as recorded in the log. -/
inductive OsCall where
  | waitNamedPipeW (name : String)
  | createFileW (name : String)
  | setNamedPipeHandleState (h : Int)
  | closeHandle (h : Int)
  | cancelIoEx (h : Int)
  | peekNamedPipe (h : Int)
  | readFile (h : Int)
  | writeFile (h : Int) (bytes : List Nat)
  | wideCharToMultiByte (cbMultiByte : Int)
  | heapAlloc (size : Int)
  | heapFree
  deriving DecidableEq

/-- The part of the world the bridge touches. -/
structure Os where
  /-- Handles of the channels that are open. -/
  handles : List Int
  /-- Inbound bytes waiting in the channel, oldest first. -/
  chan : List Nat
  /-- Outbound bytes the kernel has accepted, oldest first. -/
  sent : List Nat
  /-- Win32 calls issued so far, oldest first. -/
  log : List OsCall
  deriving DecidableEq

/-- Record a call in the log. -/
def Os.record (s : Os) (c : OsCall) : Os := { s with log := s.log ++ [c] }

/-- Answer of `PeekNamedPipe`: failure, or success with a count of available bytes. -/
inductive PeekOutcome where
  | failed
  | available (n : Nat)
  deriving DecidableEq

/-- Answer of a one-byte `ReadFile`: `FALSE`; `TRUE` with zero bytes; `TRUE` with a byte. -/
inductive ReadOutcome where
  | failed
  | noData
  | data
  deriving DecidableEq

/-- Answer of `WriteFile`: `FALSE`, or `TRUE` with the kernel taking up to `n` bytes. -/
inductive WriteOutcome where
  | failed
  | accepted (n : Nat)
  deriving DecidableEq

/-- The wide-to-UTF-8 converter behind `WideCharToMultiByte(CP_UTF8, ...)`: `run w` is the
output for the wide string `w`, its final NUL included, and is empty when the conversion
fails.  The call returns an `int`, so the length is below `2^31`. -/
structure Converter where
  run : List Nat → List Nat
  bound : ∀ w, (run w).length < 2 ^ 31

/-- `WaitNamedPipeW(pipeName, 2000)`. -/
def WaitNamedPipeW (name : String) (outcome : Bool) (s : Os) : Bool × Os :=
  (outcome, s.record (.waitNamedPipeW name))

/-- `CreateFileW(pipeName, ...)`: answers `INVALID_HANDLE_VALUE`, or a handle that is then open. -/
def CreateFileW (name : String) (outcome : Int) (s : Os) : Int × Os :=
  if outcome = INVALID_HANDLE_VALUE then
    (INVALID_HANDLE_VALUE, s.record (.createFileW name))
  else
    (outcome, { s.record (.createFileW name) with handles := outcome :: s.handles })

/-- `SetNamedPipeHandleState(hPipe, &mode, NULL, NULL)`. -/
def SetNamedPipeHandleState (h : Int) (outcome : Bool) (s : Os) : Bool × Os :=
  (outcome, s.record (.setNamedPipeHandleState h))

/-- `CloseHandle(hPipe)`: succeeds on an open handle, which is then no longer open. -/
def CloseHandle (h : Int) (s : Os) : Bool × Os :=
  (decide (h ∈ s.handles),
    { s.record (.closeHandle h) with handles := s.handles.filter (fun x => x != h) })

/-- `CancelIoEx(hPipe, NULL)`. -/
def CancelIoEx (h : Int) (s : Os) : Os := s.record (.cancelIoEx h)

/-- `PeekNamedPipe(hPipe, NULL, 0, NULL, &bytesAvailable, NULL)`: result and `bytesAvailable`. -/
def PeekNamedPipe (h : Int) (outcome : PeekOutcome) (s : Os) : Bool × Nat × Os :=
  match outcome with
  | .failed => (false, 0, s.record (.peekNamedPipe h))
  | .available n => (true, n, s.record (.peekNamedPipe h))

/-- `ReadFile(hPipe, &byte, 1, &bytesRead, NULL)`: result, `bytesRead`, `byte`.  A byte is
delivered from the front of the channel; an empty channel delivers none. -/
def ReadFile (h : Int) (outcome : ReadOutcome) (s : Os) : Bool × Nat × Nat × Os :=
  match outcome, s.chan with
  | .failed, _ => (false, 0, 0, s.record (.readFile h))
  | .noData, _ => (true, 0, 0, s.record (.readFile h))
  | .data, [] => (true, 0, 0, s.record (.readFile h))
  | .data, b :: rest => (true, 1, b, { s.record (.readFile h) with chan := rest })

/-- `WriteFile(hPipe, data, nBytes, &bytesWritten, NULL)`: result and `bytesWritten`.  The
first `nBytes` bytes of `data` are offered. -/
def WriteFile (h : Int) (data : List Nat) (nBytes : Nat) (outcome : WriteOutcome) (s : Os) :
    Bool × Nat × Os :=
  match outcome with
  | .failed => (false, 0, s.record (.writeFile h (data.take nBytes)))
  | .accepted n =>
    (true, min n (data.take nBytes).length,
      { s.record (.writeFile h (data.take nBytes)) with
        sent := s.sent ++ (data.take nBytes).take n })

/-- `WideCharToMultiByte(CP_UTF8, 0, wdata, -1, out, cbMultiByte, NULL, NULL)`: the returned
count and the bytes stored to `out`.  With `cbMultiByte = 0` only the size is computed. -/
def WideCharToMultiByte (conv : Converter) (w : List Nat) (cbMultiByte : Int) (s : Os) :
    Int × List Nat × Os :=
  if cbMultiByte = 0 then
    (((conv.run (cstr w)).length : Int), [], s.record (.wideCharToMultiByte cbMultiByte))
  else if ((conv.run (cstr w)).length : Int) ≤ cbMultiByte then
    (((conv.run (cstr w)).length : Int), conv.run (cstr w),
      s.record (.wideCharToMultiByte cbMultiByte))
  else
    (0, [], s.record (.wideCharToMultiByte cbMultiByte))

/-- `HeapAlloc(GetProcessHeap(), 0, size)`: whether a block was obtained. -/
def HeapAlloc (size : Int) (outcome : Bool) (s : Os) : Bool × Os :=
  (outcome, s.record (.heapAlloc size))

/-- `HeapFree(GetProcessHeap(), 0, utf8Buffer)`. -/
def HeapFree (s : Os) : Os := s.record .heapFree

/-! ## The exported functions -/

/-- `ConnectPipe(pipeName)`.  `pipeName = none` is the null pointer. -/
def ConnectPipe (pipeName : Option String) (waitOutcome : Bool) (openOutcome : Int)
    (modeOutcome : Bool) (s : Os) : Int × Os :=
  match pipeName with
  | none => (INVALID_HANDLE_VALUE, s)
  | some name =>
    let w := WaitNamedPipeW name waitOutcome s
    if !w.1 then (INVALID_HANDLE_VALUE, w.2)
    else
      let c := CreateFileW name openOutcome w.2
      let hPipe := c.1
      if hPipe = INVALID_HANDLE_VALUE then (INVALID_HANDLE_VALUE, c.2)
      else
        let m := SetNamedPipeHandleState hPipe modeOutcome c.2
        if !m.1 then (INVALID_HANDLE_VALUE, (CloseHandle hPipe m.2).2)
        else (hPipe, m.2)

/-- `WritePipeW(handle, wdata)`.  `wdata = none` is the null pointer. -/
def WritePipeW (handle : Int) (wdata : Option (List Nat)) (conv : Converter)
    (allocOutcome : Bool) (writeOutcome : WriteOutcome) (s : Os) : Int × Os :=
  match wdata with
  | none => (-1, s)
  | some w =>
    if handle = 0 ∨ handle = INVALID_HANDLE_VALUE then (-1, s)
    else
      let n := WideCharToMultiByte conv w 0 s
      let bytesNeeded := n.1
      if bytesNeeded ≤ 0 then (-1, n.2.2)
      else
        let a := HeapAlloc bytesNeeded allocOutcome n.2.2
        if !a.1 then (-1, a.2)
        else
          let c := WideCharToMultiByte conv w bytesNeeded a.2
          let converted := c.1
          let utf8Buffer := c.2.1
          if converted ≤ 0 then (-1, HeapFree c.2.2)
          else
            let bytesToWrite := toDWORD (converted - 1)
            let r := WriteFile handle utf8Buffer bytesToWrite writeOutcome c.2.2
            let bytesWritten := r.2.1
            (if r.1 then toInt32 bytesWritten else -1, HeapFree r.2.2)

/-- `WritePipe(handle, data)`.  `data = none` is the null pointer. -/
def WritePipe (handle : Int) (data : Option (List Nat)) (writeOutcome : WriteOutcome)
    (s : Os) : Int × Os :=
  match data with
  | none => (-1, s)
  | some bytes =>
    if handle = 0 ∨ handle = INVALID_HANDLE_VALUE then (-1, s)
    else
      let dataLen := toDWORD (strlen bytes)
      let r := WriteFile handle bytes dataLen writeOutcome s
      let bytesWritten := r.2.1
      (if r.1 then toInt32 bytesWritten else -1, r.2.2)

/-- The store `buffer[i] = b`. -/
def store (buffer : Nat → Nat) (i b : Nat) : Nat → Nat :=
  fun j => if j = i then b else buffer j

/-- The variables of the read loop: `totalBytesRead`, the caller's buffer, the indices that
have been stored to (oldest first), and the world. -/
structure LoopVars where
  totalBytesRead : Nat
  buffer : Nat → Nat
  written : List Nat
  os : Os

/-- How the read loop is left: by `break` or a false loop test, or by `return -1`. -/
inductive LoopExit where
  | done (v : LoopVars)
  | returned (ret : Int) (v : LoopVars)

/-- The loop `while (totalBytesRead < bufferSize - 1) { ... }` of `ReadPipeLine`.  The
first argument bounds the number of iterations; `reads k` is the answer to the `k`-th
`ReadFile` from here on. -/
def readLoop (hPipe : Int) (bufferSize : Int) :
    Nat → (Nat → ReadOutcome) → LoopVars → LoopExit
  | 0, _, v => .done v
  | fuel + 1, reads, v =>
    if (v.totalBytesRead : Int) < bufferSize - 1 then
      let r := ReadFile hPipe (reads 0) v.os
      let result := r.1
      let bytesRead := r.2.1
      let byte := r.2.2.1
      if !result then
        if v.totalBytesRead > 0 then .done { v with os := r.2.2.2 }
        else .returned (-1) { v with os := r.2.2.2 }
      else if bytesRead = 0 then .done { v with os := r.2.2.2 }
      else
        let v1 : LoopVars :=
          { totalBytesRead := v.totalBytesRead + 1
            buffer := store v.buffer v.totalBytesRead byte
            written := v.written ++ [v.totalBytesRead]
            os := r.2.2.2 }
        if byte = NL then .done v1
        else readLoop hPipe bufferSize fuel (fun k => reads (k + 1)) v1
    else .done v

/-- What a call of `ReadPipeLine` leaves behind: the returned `int`, the caller's buffer,
the buffer indices stored to (oldest first), and the world. -/
structure ReadResult where
  ret : Int
  buffer : Option (Nat → Nat)
  written : List Nat
  os : Os

/-- The end of `ReadPipeLine`: `buffer[totalBytesRead] = '\0'; return totalBytesRead;`. -/
def terminate (v : LoopVars) : ReadResult :=
  { ret := (v.totalBytesRead : Int)
    buffer := some (store v.buffer v.totalBytesRead 0)
    written := v.written ++ [v.totalBytesRead]
    os := v.os }

/-- `ReadPipeLine(handle, buffer, bufferSize)`.  `buffer = none` is the null pointer.  The
four tests of the opening guard have no effect on the world, so the null test is taken
first.  The loop needs at most `bufferSize - 1` iterations, each of which stores a byte or
leaves. -/
def ReadPipeLine (handle : Int) (buffer : Option (Nat → Nat)) (bufferSize : Int)
    (peek : PeekOutcome) (reads : Nat → ReadOutcome) (s : Os) : ReadResult :=
  match buffer with
  | none => { ret := -1, buffer := none, written := [], os := s }
  | some mem =>
    if handle = 0 ∨ handle = INVALID_HANDLE_VALUE ∨ bufferSize ≤ 0 then
      { ret := -1, buffer := some mem, written := [], os := s }
    else
      let p := PeekNamedPipe handle peek s
      let bytesAvailable := p.2.1
      if !p.1 then { ret := -1, buffer := some mem, written := [], os := p.2.2 }
      else if bytesAvailable = 0 then
        { ret := 0, buffer := some mem, written := [], os := p.2.2 }
      else
        match readLoop handle bufferSize (bufferSize - 1).toNat reads
            { totalBytesRead := 0, buffer := mem, written := [], os := p.2.2 } with
        | .returned ret v =>
          { ret := ret, buffer := some v.buffer, written := v.written, os := v.os }
        | .done v => terminate v

/-- `ClosePipe(handle)`. -/
def ClosePipe (handle : Int) (s : Os) : Os :=
  if handle = 0 ∨ handle = INVALID_HANDLE_VALUE then s
  else (CloseHandle handle (CancelIoEx handle s)).2

/-! ## Reading a result -/

/-- The first `n` bytes of a buffer. -/
def bytesOf (buffer : Nat → Nat) (n : Nat) : List Nat := (List.range n).map buffer

/-- A world with nothing open, `chan` waiting inbound, and no call made yet. -/
def Os.fresh (chan : List Nat) : Os := { handles := [], chan := chan, sent := [], log := [] }

/-- Every read delivers. -/
def allData : Nat → ReadOutcome := fun _ => .data

/-- The converter on 7-bit text of fewer than 1000 units: the units, then the NUL.  It fails
on anything else. -/
def asciiConverter : Converter where
  run := fun w => if w.length < 1000 ∧ w.all (fun c => c < 128) then w ++ [0] else []
  bound := by
    intro w
    by_cases h : w.length < 1000 ∧ w.all (fun c => c < 128) = true
    · simp only [h, and_self, if_true, List.length_append, List.length_singleton]; omega
    · simp only [h, if_false, List.length_nil]; decide

/-- The first 19 bytes of the 20-byte line `0123456789012345678\n`. -/
def digits19 : List Nat :=
  [48, 49, 50, 51, 52, 53, 54, 55, 56, 57, 48, 49, 50, 51, 52, 53, 54, 55, 56]

/-- Successive stores `buffer[i] = b0, buffer[i+1] = b1, ...`. -/
def storeList (buffer : Nat → Nat) : Nat → List Nat → Nat → Nat
  | _, [] => buffer
  | i, b :: bs => storeList (store buffer i b) (i + 1) bs

/-- The loop variables after `pre` has been read off the front of the channel by
successful one-byte reads, `rest` being what is left in the channel. -/
def advance (hPipe : Int) (v : LoopVars) (pre rest : List Nat) : LoopVars :=
  { totalBytesRead := v.totalBytesRead + pre.length
    buffer := storeList v.buffer v.totalBytesRead pre
    written := v.written ++ List.range' v.totalBytesRead pre.length
    os := { v.os with
      chan := rest
      log := v.os.log ++ List.replicate pre.length (OsCall.readFile hPipe) } }

/-- The loop variables on entry to the read loop, after the availability query. -/
def entry (handle : Int) (mem : Nat → Nat) (s : Os) : LoopVars :=
  { totalBytesRead := 0, buffer := mem, written := [], os := s.record (.peekNamedPipe handle) }

/-- The loop variables an exit carries. -/
def LoopExit.vars : LoopExit → LoopVars
  | .done v => v
  | .returned _ v => v

/-- What one run of the read loop, started with variables `v` and left by `e`, may have done:
`totalBytesRead` only grows and stays within `bufferSize - 1`; the stores went to the indices
from the old `totalBytesRead` up to the new one, in order; the bytes stored there are the
bytes taken from the front of the channel; the rest of the buffer is as before; and
`return -1` happens only with nothing read. -/
def LoopInv (C : Int) (v : LoopVars) (e : LoopExit) : Prop :=
  v.totalBytesRead ≤ e.vars.totalBytesRead
  ∧ e.vars.written
      = v.written ++ List.range' v.totalBytesRead (e.vars.totalBytesRead - v.totalBytesRead)
  ∧ v.os.chan
      = (List.range' v.totalBytesRead (e.vars.totalBytesRead - v.totalBytesRead)).map
          e.vars.buffer ++ e.vars.os.chan
  ∧ (∀ j, j < v.totalBytesRead ∨ e.vars.totalBytesRead ≤ j → e.vars.buffer j = v.buffer j)
  ∧ ((v.totalBytesRead : Int) ≤ C - 1 → (e.vars.totalBytesRead : Int) ≤ C - 1)
  ∧ (∀ r v1, e = .returned r v1 → r = -1 ∧ v1.totalBytesRead = 0)

/-! ## Sequences of reads on a settled channel -/

/-- The bytes a call of `ReadPipeLine` handed back: `buffer[0..ret)`. -/
def ReadResult.bytes (r : ReadResult) : List Nat :=
  match r.buffer with
  | some b => bytesOf b r.ret.toNat
  | none => []

/-- One call of a sequence: the caller's buffer and its capacity. -/
structure Call where
  buffer : Nat → Nat
  bufferSize : Int

/-- Calls of `ReadPipeLine` one after the other on one handle, on a settled channel: each
availability query reports the number of bytes pending and every read delivers.  The results
come in call order, with the world after the last call. -/
def readCalls (handle : Int) : List Call → Os → List ReadResult × Os
  | [], s => ([], s)
  | c :: cs, s =>
    let r := ReadPipeLine handle (some c.buffer) c.bufferSize (.available s.chan.length)
      allData s
    ((r :: (readCalls handle cs r.os).1), (readCalls handle cs r.os).2)

/-- Stated from the words of the property, not from the code: the shortest beginning of
`stream` that ends at the first newline, or has length `room`, or exhausts the stream. -/
def linePrefix : Nat → List Nat → List Nat
  | _, [] => []
  | 0, _ :: _ => []
  | room + 1, b :: bs => if b = NL then [b] else b :: linePrefix room bs

/-- When a beginning `q` of `stream` is a place to stop: it ends with a newline, or has
length `room`, or is the whole stream. -/
def StopsAt (room : Nat) (stream q : List Nat) : Prop :=
  q.getLast? = some NL ∨ q.length = room ∨ q = stream

/-- Stated from the words of the property: the beginnings taken off `stream` one after the
other by `linePrefix`, one for each entry of `rooms`. -/
def linePrefixes : List Nat → List Nat → List (List Nat)
  | [], _ => []
  | room :: rooms, stream =>
    linePrefix room stream :: linePrefixes rooms (stream.drop (linePrefix room stream).length)

/-- What is left of `stream` once `linePrefixes rooms stream` has been taken off. -/
def afterPrefixes : List Nat → List Nat → List Nat
  | [], stream => stream
  | room :: rooms, stream =>
    afterPrefixes rooms (stream.drop (linePrefix room stream).length)

/-! ## Stores into the buffer -/

theorem storeList_apply (l : List Nat) : ∀ (buf : Nat → Nat) (i j : Nat),
    storeList buf i l j = if i ≤ j ∧ j < i + l.length then l.getD (j - i) 0 else buf j := by
  induction l with
  | nil =>
    intro buf i j
    have h : ¬ (i ≤ j ∧ j < i + ([] : List Nat).length) := by simp
    rw [if_neg h]; rfl
  | cons b bs ih =>
    intro buf i j
    simp only [storeList, ih, store, List.length_cons]
    by_cases h1 : j = i
    · subst h1; simp
    · by_cases h2 : i + 1 ≤ j ∧ j < i + 1 + bs.length
      · have h3 : i ≤ j ∧ j < i + (bs.length + 1) := by omega
        have h4 : j - i = (j - (i + 1)) + 1 := by omega
        rw [if_pos h2, if_pos h3, h4]; simp
      · have h3 : ¬ (i ≤ j ∧ j < i + (bs.length + 1)) := by omega
        rw [if_neg h2, if_neg h3, if_neg h1]

theorem bytesOf_length (buf : Nat → Nat) (n : Nat) : (bytesOf buf n).length = n := by
  simp [bytesOf]

theorem bytesOf_storeList (buf : Nat → Nat) (l : List Nat) :
    bytesOf (storeList buf 0 l) l.length = l := by
  apply List.ext_getElem
  · simp [bytesOf]
  · intro i h1 h2
    simp [bytesOf, storeList_apply, h2]

theorem ReadFile_data_cons (h : Int) (s : Os) (b : Nat) (tl : List Nat) (hc : s.chan = b :: tl) :
    ReadFile h .data s = (true, 1, b, { s.record (.readFile h) with chan := tl }) := by
  unfold ReadFile; rw [hc]

theorem readLoop_run (hPipe : Int) (C : Int) (pre : List Nat) :
    ∀ (fuel : Nat) (reads : Nat → ReadOutcome) (v : LoopVars) (rest : List Nat),
      v.os.chan = pre ++ rest → NL ∉ pre → (∀ i, i < pre.length → reads i = .data) →
      ((v.totalBytesRead + pre.length : Nat) : Int) ≤ C - 1 →
      readLoop hPipe C (fuel + pre.length) reads v
        = readLoop hPipe C fuel (fun k => reads (k + pre.length)) (advance hPipe v pre rest) := by
  induction pre with
  | nil =>
    intro fuel reads v rest hc _ _ _
    obtain ⟨t, b, w, os⟩ := v
    obtain ⟨hs, ch, se, lg⟩ := os
    simp at hc
    subst hc
    simp [advance, storeList]
  | cons b bs ih =>
    intro fuel reads v rest hc hnl hr hcap
    have hlt : (v.totalBytesRead : Int) < C - 1 := by
      simp only [List.length_cons] at hcap; omega
    have hb : b ≠ NL := fun h => hnl (by simp [h])
    have hnl2 : NL ∉ bs := fun h => hnl (by simp [h])
    have hr0 : reads 0 = .data := hr 0 (by simp)
    have e : fuel + (b :: bs).length = (fuel + bs.length) + 1 := by simp; omega
    rw [e, readLoop, if_pos hlt, hr0, ReadFile_data_cons hPipe v.os b (bs ++ rest) (by simpa using hc)]
    simp only [Bool.not_true, Bool.false_eq_true, if_false, one_ne_zero, if_neg hb]
    rw [ih fuel _ _ rest rfl hnl2 (fun i hi => hr (i + 1) (by simp; omega))
      (by simp only [List.length_cons] at hcap; push_cast at hcap ⊢; omega)]
    congr 1
    simp [advance, storeList, Os.record, List.range'_succ, List.replicate_succ, Nat.add_assoc,
      Nat.add_comm 1]

/-! ## The read loop on a channel whose reads deliver -/

theorem storeList_append (l1 l2 : List Nat) : ∀ (buf : Nat → Nat) (i : Nat),
    storeList buf i (l1 ++ l2) = storeList (storeList buf i l1) (i + l1.length) l2 := by
  induction l1 with
  | nil => intro buf i; simp [storeList]
  | cons b bs ih =>
    intro buf i
    have e : i + 1 + bs.length = i + (bs.length + 1) := by omega
    show storeList (store buf i b) (i + 1) (bs ++ l2) = _
    rw [ih, List.length_cons, e]; rfl

theorem readLoop_stop (hPipe : Int) (C : Int) (fuel : Nat) (reads : Nat → ReadOutcome)
    (v : LoopVars) (h : ¬ (v.totalBytesRead : Int) < C - 1) :
    readLoop hPipe C fuel reads v = .done v := by
  cases fuel with
  | zero => rfl
  | succ f => rw [readLoop, if_neg h]

/-- A line in front of the channel that fits: the loop leaves at the newline. -/
theorem readLoop_newline (hPipe : Int) (C : Int) (body rest : List Nat) (fuel : Nat)
    (reads : Nat → ReadOutcome) (v : LoopVars)
    (hc : v.os.chan = body ++ NL :: rest) (hnl : NL ∉ body)
    (hr : ∀ i, i ≤ body.length → reads i = .data)
    (hcap : ((v.totalBytesRead + body.length + 1 : Nat) : Int) ≤ C - 1) :
    readLoop hPipe C (fuel + 1 + body.length) reads v
      = .done (advance hPipe v (body ++ [NL]) rest) := by
  rw [readLoop_run hPipe C body (fuel + 1) reads v (NL :: rest) hc hnl
    (fun i hi => hr i (Nat.le_of_lt hi)) (by push_cast at hcap ⊢; omega)]
  have hlt : ((advance hPipe v body (NL :: rest)).totalBytesRead : Int) < C - 1 := by
    simp only [advance]; push_cast at hcap ⊢; omega
  have hr0 : reads (0 + body.length) = .data := hr _ (by omega)
  rw [readLoop, if_pos hlt]
  simp only [hr0]
  rw [ReadFile_data_cons hPipe _ NL rest rfl]
  simp only [Bool.not_true, Bool.false_eq_true, if_false, one_ne_zero, if_true]
  congr 1
  simp [advance, storeList_append, storeList, Os.record, List.range'_concat]
  exact ⟨by omega, (List.replicate_succ' _ _).symm⟩

/-- More bytes without a newline than the buffer takes: the loop leaves when
`totalBytesRead` reaches `bufferSize - 1`. -/
theorem readLoop_full (hPipe : Int) (C : Int) (pre rest : List Nat) (fuel : Nat)
    (reads : Nat → ReadOutcome) (v : LoopVars)
    (hc : v.os.chan = pre ++ rest) (hnl : NL ∉ pre)
    (hr : ∀ i, i < pre.length → reads i = .data)
    (hcap : ((v.totalBytesRead + pre.length : Nat) : Int) = C - 1) :
    readLoop hPipe C (fuel + pre.length) reads v = .done (advance hPipe v pre rest) := by
  rw [readLoop_run hPipe C pre fuel reads v rest hc hnl hr (le_of_eq hcap)]
  apply readLoop_stop
  simp only [advance]; omega

/-- The channel stops delivering before a newline and before the buffer is full: the loop
leaves with what it has, provided the read that fails outright is not the very first one. -/
theorem readLoop_stall (hPipe : Int) (C : Int) (pre rest : List Nat) (fuel : Nat)
    (reads : Nat → ReadOutcome) (v : LoopVars)
    (hc : v.os.chan = pre ++ rest) (hnl : NL ∉ pre)
    (hr : ∀ i, i < pre.length → reads i = .data)
    (hcap : ((v.totalBytesRead + pre.length : Nat) : Int) < C - 1)
    (hstall : reads pre.length ≠ .data ∨ rest = [])
    (hfail : reads pre.length = .failed → 0 < v.totalBytesRead + pre.length) :
    readLoop hPipe C (fuel + 1 + pre.length) reads v
      = .done { advance hPipe v pre rest with
          os := (advance hPipe v pre rest).os.record (.readFile hPipe) } := by
  rw [readLoop_run hPipe C pre (fuel + 1) reads v rest hc hnl hr (le_of_lt hcap)]
  have hlt : ((advance hPipe v pre rest).totalBytesRead : Int) < C - 1 := by
    simp only [advance]; exact hcap
  rw [readLoop, if_pos hlt]
  simp only [Nat.zero_add]
  cases hk : reads pre.length with
  | failed =>
    have hpos : (advance hPipe v pre rest).totalBytesRead > 0 := hfail hk
    simp [ReadFile, hpos]
  | noData => simp [ReadFile]
  | data =>
    have hrest : rest = [] := by
      rcases hstall with h | h
      · exact absurd hk h
      · exact h
    subst hrest
    simp [ReadFile, advance]

/-! ## ReadPipeLine on a channel whose reads deliver -/

theorem ReadPipeLine_enter (handle : Int) (mem : Nat → Nat) (C : Int) (n : Nat)
    (reads : Nat → ReadOutcome) (s : Os)
    (h0 : handle ≠ 0) (h1 : handle ≠ INVALID_HANDLE_VALUE) (hC : 0 < C) (hn : n ≠ 0) :
    ReadPipeLine handle (some mem) C (.available n) reads s
      = match readLoop handle C (C - 1).toNat reads (entry handle mem s) with
        | .returned ret v =>
          { ret := ret, buffer := some v.buffer, written := v.written, os := v.os }
        | .done v => terminate v := by
  have hg : ¬ (handle = 0 ∨ handle = INVALID_HANDLE_VALUE ∨ C ≤ 0) := by
    rintro (h | h | h)
    · exact h0 h
    · exact h1 h
    · omega
  simp only [ReadPipeLine, if_neg hg, PeekNamedPipe, Bool.not_true, Bool.false_eq_true,
    if_false, if_neg hn, entry]

theorem ReadPipeLine_newline (handle : Int) (mem : Nat → Nat) (C : Int) (n : Nat)
    (reads : Nat → ReadOutcome) (s : Os) (body rest : List Nat)
    (h0 : handle ≠ 0) (h1 : handle ≠ INVALID_HANDLE_VALUE) (hn : n ≠ 0)
    (hc : s.chan = body ++ NL :: rest) (hnl : NL ∉ body)
    (hr : ∀ i, i ≤ body.length → reads i = .data)
    (hcap : ((body.length + 1 : Nat) : Int) ≤ C - 1) :
    ReadPipeLine handle (some mem) C (.available n) reads s
      = terminate (advance handle (entry handle mem s) (body ++ [NL]) rest) := by
  rw [ReadPipeLine_enter handle mem C n reads s h0 h1 (by omega) hn]
  obtain ⟨f, hf⟩ : ∃ f, (C - 1).toNat = f + 1 + body.length := ⟨(C - 1).toNat - 1 - body.length, by omega⟩
  rw [hf, readLoop_newline handle C body rest f reads (entry handle mem s) hc hnl hr
    (by simp only [entry]; push_cast at hcap ⊢; omega)]

theorem ReadPipeLine_full (handle : Int) (mem : Nat → Nat) (C : Int) (n : Nat)
    (reads : Nat → ReadOutcome) (s : Os) (pre rest : List Nat)
    (h0 : handle ≠ 0) (h1 : handle ≠ INVALID_HANDLE_VALUE) (hn : n ≠ 0) (hC : 0 < C)
    (hc : s.chan = pre ++ rest) (hnl : NL ∉ pre)
    (hr : ∀ i, i < pre.length → reads i = .data)
    (hcap : ((pre.length : Nat) : Int) = C - 1) :
    ReadPipeLine handle (some mem) C (.available n) reads s
      = terminate (advance handle (entry handle mem s) pre rest) := by
  rw [ReadPipeLine_enter handle mem C n reads s h0 h1 hC hn]
  obtain ⟨f, hf⟩ : ∃ f, (C - 1).toNat = f + pre.length := ⟨0, by omega⟩
  rw [hf, readLoop_full handle C pre rest f reads (entry handle mem s) hc hnl hr
    (by simp only [entry]; push_cast at hcap ⊢; omega)]

theorem ReadPipeLine_stall (handle : Int) (mem : Nat → Nat) (C : Int) (n : Nat)
    (reads : Nat → ReadOutcome) (s : Os) (pre rest : List Nat)
    (h0 : handle ≠ 0) (h1 : handle ≠ INVALID_HANDLE_VALUE) (hn : n ≠ 0)
    (hc : s.chan = pre ++ rest) (hnl : NL ∉ pre)
    (hr : ∀ i, i < pre.length → reads i = .data)
    (hcap : ((pre.length : Nat) : Int) < C - 1)
    (hstall : reads pre.length ≠ .data ∨ rest = [])
    (hfail : reads pre.length = .failed → 0 < pre.length) :
    ReadPipeLine handle (some mem) C (.available n) reads s
      = terminate { advance handle (entry handle mem s) pre rest with
          os := (advance handle (entry handle mem s) pre rest).os.record (.readFile handle) } := by
  rw [ReadPipeLine_enter handle mem C n reads s h0 h1 (by omega) hn]
  obtain ⟨f, hf⟩ : ∃ f, (C - 1).toNat = f + 1 + pre.length := ⟨(C - 1).toNat - 1 - pre.length, by omega⟩
  rw [hf, readLoop_stall handle C pre rest f reads (entry handle mem s) hc hnl hr
    (by simp only [entry]; push_cast at hcap ⊢; omega) hstall
    (by simpa only [entry, Nat.zero_add] using hfail)]

theorem bytesOf_terminated (mem : Nat → Nat) (l : List Nat) :
    bytesOf (store (storeList mem 0 l) l.length 0) (l.length + 1) = l ++ [0] := by
  apply List.ext_getElem
  · simp [bytesOf]
  · intro i h1 h2
    simp only [bytesOf_length] at h1
    by_cases h : i = l.length
    · subst h; simp [bytesOf, store]
    · have h3 : i < l.length := by omega
      simp [bytesOf, store, h, storeList_apply, h3, List.getElem_append_left]

/-! ## C1: a line that fits -/

/-- C1, as stated, fails at `L = C`: with capacity 4 and the 4-byte line `abc\n` waiting,
`ReadPipeLine` returns 3, not 4; the buffer holds `abc` and the terminator, and the newline
is still in the channel. -/
theorem C1_boundary_counterexample :
    (ReadPipeLine 1 (some (fun _ => 0)) 4 (.available 4) allData (Os.fresh [97, 98, 99, 10])).ret = 3
    ∧ (ReadPipeLine 1 (some (fun _ => 0)) 4 (.available 4) allData
        (Os.fresh [97, 98, 99, 10])).ret ≠ 4
    ∧ (ReadPipeLine 1 (some (fun _ => 0)) 4 (.available 4) allData
        (Os.fresh [97, 98, 99, 10])).os.chan = [NL] := by
  decide

/-- C1 (amended): for a line of `L = body.length + 1` bytes (`L - 1` non-newline bytes, then
a newline) at the front of the channel, a valid handle, a non-null buffer, and a capacity `C`
with `L < C`, i.e. `L ≤ C - 1`: `ReadPipeLine` returns `L`, the buffer holds the whole line
with its newline, the byte after it is the `0` terminator, and the channel is left with what
followed the line. -/
theorem C1_line_fits (handle : Int) (mem : Nat → Nat) (C : Int) (n : Nat)
    (reads : Nat → ReadOutcome) (s : Os) (body rest : List Nat)
    (h0 : handle ≠ 0) (h1 : handle ≠ INVALID_HANDLE_VALUE) (hn : n ≠ 0)
    (hc : s.chan = body ++ NL :: rest) (hnl : NL ∉ body)
    (hr : ∀ i, i ≤ body.length → reads i = .data)
    (hcap : ((body.length + 1 : Nat) : Int) < C) :
    (ReadPipeLine handle (some mem) C (.available n) reads s).ret = ((body.length + 1 : Nat) : Int)
    ∧ (ReadPipeLine handle (some mem) C (.available n) reads s).buffer.map
        (fun b => bytesOf b (body.length + 2)) = some (body ++ [NL] ++ [0])
    ∧ (ReadPipeLine handle (some mem) C (.available n) reads s).os.chan = rest := by
  rw [ReadPipeLine_newline handle mem C n reads s body rest h0 h1 hn hc hnl hr (by omega)]
  refine ⟨by simp [terminate, advance, entry], ?_, by simp [terminate, advance, entry]⟩
  have e := bytesOf_terminated mem (body ++ [NL])
  simp only [List.length_append, List.length_singleton] at e
  simp [terminate, advance, entry, e]

/-- C1 (amended), at the line `hi\n` with capacity 4. -/
theorem C1_line_fits_witness :
    (ReadPipeLine 1 (some (fun _ => 7)) 4 (.available 3) allData (Os.fresh [104, 105, 10, 33])).ret
      = ((2 + 1 : Nat) : Int)
    ∧ (ReadPipeLine 1 (some (fun _ => 7)) 4 (.available 3) allData
        (Os.fresh [104, 105, 10, 33])).buffer.map (fun b => bytesOf b (2 + 2))
      = some ([104, 105] ++ [NL] ++ [0])
    ∧ (ReadPipeLine 1 (some (fun _ => 7)) 4 (.available 3) allData
        (Os.fresh [104, 105, 10, 33])).os.chan = [33] :=
  C1_line_fits 1 (fun _ => 7) 4 3 allData (Os.fresh [104, 105, 10, 33]) [104, 105] [33]
    (by decide) (by decide) (by decide) rfl (by decide) (fun _ _ => rfl) (by decide)

/-! ## C2: a line longer than the buffer -/

/-- C2: for a capacity `C ≥ 2` and a line of `L = body.length + 1 > C` bytes at the front of
the channel, one call returns `C - 1`, the buffer holds the first `C - 1` bytes of the line
and then the `0` terminator, and the other `L - (C - 1)` bytes of the line are still at the
front of the channel.  They are what later calls deliver: a following call of any capacity
`C2 ≥ 2` returns the first `min (C2 - 1) (L - (C - 1))` of them, terminated, and leaves the
others in the channel. -/
theorem C2_long_line_excess_retained (handle : Int) (mem : Nat → Nat) (C : Nat) (n : Nat)
    (reads : Nat → ReadOutcome) (s : Os) (body rest : List Nat)
    (h0 : handle ≠ 0) (h1 : handle ≠ INVALID_HANDLE_VALUE) (hn : n ≠ 0)
    (hC : 2 ≤ C) (hL : C < body.length + 1)
    (hc : s.chan = body ++ NL :: rest) (hnl : NL ∉ body)
    (hr : ∀ i, i < C - 1 → reads i = .data) :
    (ReadPipeLine handle (some mem) (C : Int) (.available n) reads s).ret = (C : Int) - 1
    ∧ (ReadPipeLine handle (some mem) (C : Int) (.available n) reads s).buffer.map
        (fun b => bytesOf b C) = some ((body ++ [NL]).take (C - 1) ++ [0])
    ∧ (ReadPipeLine handle (some mem) (C : Int) (.available n) reads s).os.chan
        = (body ++ [NL]).drop (C - 1) ++ rest
    ∧ ((body ++ [NL]).drop (C - 1)).length = body.length + 1 - (C - 1)
    ∧ ∀ (mem2 : Nat → Nat) (C2 n2 : Nat) (reads2 : Nat → ReadOutcome),
        2 ≤ C2 → n2 ≠ 0 → (∀ i, reads2 i = .data) →
        (ReadPipeLine handle (some mem2) (C2 : Int) (.available n2) reads2
            (ReadPipeLine handle (some mem) (C : Int) (.available n) reads s).os).ret
          = ((min (C2 - 1) (body.length + 1 - (C - 1)) : Nat) : Int)
        ∧ (ReadPipeLine handle (some mem2) (C2 : Int) (.available n2) reads2
            (ReadPipeLine handle (some mem) (C : Int) (.available n) reads s).os).buffer.map
            (fun b => bytesOf b (min (C2 - 1) (body.length + 1 - (C - 1)) + 1))
          = some (((body ++ [NL]).drop (C - 1)).take (min (C2 - 1) (body.length + 1 - (C - 1)))
              ++ [0])
        ∧ (ReadPipeLine handle (some mem2) (C2 : Int) (.available n2) reads2
            (ReadPipeLine handle (some mem) (C : Int) (.available n) reads s).os).os.chan
          = ((body ++ [NL]).drop (C - 1)).drop (min (C2 - 1) (body.length + 1 - (C - 1)))
              ++ rest := by
  have hk : C - 1 ≤ body.length := by omega
  have hsplit : s.chan = body.take (C - 1) ++ (body.drop (C - 1) ++ NL :: rest) := by
    rw [hc, ← List.append_assoc, List.take_append_drop]
  have hnl1 : NL ∉ body.take (C - 1) := fun h => hnl (List.mem_of_mem_take h)
  have hnl2 : NL ∉ body.drop (C - 1) := fun h => hnl (List.mem_of_mem_drop h)
  have hlen1 : (body.take (C - 1)).length = C - 1 := by simp [hk]
  have htake : (body ++ [NL]).take (C - 1) = body.take (C - 1) :=
    List.take_append_of_le_length hk
  have hdrop : (body ++ [NL]).drop (C - 1) = body.drop (C - 1) ++ [NL] :=
    List.drop_append_of_le_length hk
  rw [ReadPipeLine_full handle mem C n reads s (body.take (C - 1))
    (body.drop (C - 1) ++ NL :: rest) h0 h1 hn (by omega) hsplit hnl1
    (fun i hi => hr i (by omega)) (by rw [hlen1]; omega)]
  have e := bytesOf_terminated mem (body.take (C - 1))
  rw [hlen1, show C - 1 + 1 = C by omega] at e
  refine ⟨?_, ?_, ?_, ?_, ?_⟩
  · simp [terminate, advance, entry, hk]; omega
  · simp [terminate, advance, entry, hlen1, htake, e]
  · simp [terminate, advance, entry, hdrop]
  · simp
  · intro mem2 C2 n2 reads2 hC2 hn2 hr2
    rw [hdrop]
    have hchan : (terminate (advance handle (entry handle mem s) (body.take (C - 1))
        (body.drop (C - 1) ++ NL :: rest))).os.chan = body.drop (C - 1) ++ NL :: rest := rfl
    have hlen2 : (body.drop (C - 1)).length = body.length - (C - 1) := by simp
    by_cases hfit : body.length + 1 - (C - 1) ≤ C2 - 1
    · rw [ReadPipeLine_newline handle mem2 C2 n2 reads2 _ (body.drop (C - 1)) rest h0 h1 hn2
        hchan hnl2 (fun i _ => hr2 i) (by rw [hlen2]; omega)]
      have e2 := bytesOf_terminated mem2 (body.drop (C - 1) ++ [NL])
      have hl : (body.drop (C - 1) ++ [NL]).length = body.length + 1 - (C - 1) := by
        simp; omega
      rw [hl] at e2
      rw [Nat.min_eq_right hfit, List.take_of_length_le (le_of_eq hl),
        List.drop_of_length_le (le_of_eq hl)]
      refine ⟨?_, ?_, ?_⟩
      · simp [terminate, advance, entry]; omega
      · simp only [terminate, advance, entry, Option.map_some', hl, Nat.zero_add, e2]
      · simp [terminate, advance, entry]
    · have hm : C2 - 1 ≤ (body.drop (C - 1)).length := by rw [hlen2]; omega
      have hsplit2 : body.drop (C - 1) ++ NL :: rest
          = (body.drop (C - 1)).take (C2 - 1)
            ++ ((body.drop (C - 1)).drop (C2 - 1) ++ NL :: rest) := by
        rw [← List.append_assoc, List.take_append_drop]
      have hlen3 : ((body.drop (C - 1)).take (C2 - 1)).length = C2 - 1 := by
        rw [List.length_take]; exact Nat.min_eq_left hm
      rw [ReadPipeLine_full handle mem2 C2 n2 reads2 _ ((body.drop (C - 1)).take (C2 - 1))
        ((body.drop (C - 1)).drop (C2 - 1) ++ NL :: rest) h0 h1 hn2 (by omega)
        (hchan.trans hsplit2) (fun h => hnl2 (List.mem_of_mem_take h)) (fun i _ => hr2 i)
        (by rw [hlen3]; omega)]
      have e3 := bytesOf_terminated mem2 ((body.drop (C - 1)).take (C2 - 1))
      rw [hlen3] at e3
      rw [Nat.min_eq_left (by omega : C2 - 1 ≤ body.length + 1 - (C - 1)),
        List.take_append_of_le_length hm, List.drop_append_of_le_length hm]
      refine ⟨?_, ?_, ?_⟩
      · simp only [terminate, advance, entry, hlen3, Nat.zero_add]
      · simp only [terminate, advance, entry, Option.map_some', hlen3, Nat.zero_add, e3]
      · simp [terminate, advance, entry]

/-- C2, at the 20-byte line `0123456789012345678\n` with capacity 8: the first call returns
the 7 bytes `0123456`, the other 13 bytes stay in the channel, and a second call with
capacity 8 returns the next 7 of them. -/
theorem C2_long_line_witness :
    (ReadPipeLine 1 (some (fun _ => 7)) 8 (.available 20) allData
        (Os.fresh (digits19 ++ [NL]))).ret = 7
    ∧ (ReadPipeLine 1 (some (fun _ => 7)) 8 (.available 20) allData
        (Os.fresh (digits19 ++ [NL]))).buffer.map (fun b => bytesOf b 8)
      = some ([48, 49, 50, 51, 52, 53, 54] ++ [0])
    ∧ (ReadPipeLine 1 (some (fun _ => 7)) 8 (.available 20) allData
        (Os.fresh (digits19 ++ [NL]))).os.chan
      = [55, 56, 57, 48, 49, 50, 51, 52, 53, 54, 55, 56, 10]
    ∧ (ReadPipeLine 1 (some (fun _ => 7)) 8 (.available 13) allData
        (ReadPipeLine 1 (some (fun _ => 7)) 8 (.available 20) allData
          (Os.fresh (digits19 ++ [NL]))).os).ret = 7 :=
  have h := C2_long_line_excess_retained 1 (fun _ => 7) 8 20 allData
    (Os.fresh (digits19 ++ [NL])) digits19 [] (by decide) (by decide) (by decide) (by decide)
    (by decide) (by simp [Os.fresh]) (by decide) (fun _ _ => rfl)
  ⟨h.1, h.2.1, h.2.2.1,
    (h.2.2.2.2 (fun _ => 7) 8 13 allData (by decide) (by decide) (fun _ => rfl)).1⟩

/-! ## C3: nothing available -/

theorem ReadPipeLine_zero_available (handle : Int) (mem : Nat → Nat) (C : Int)
    (reads : Nat → ReadOutcome) (s : Os)
    (h0 : handle ≠ 0) (h1 : handle ≠ INVALID_HANDLE_VALUE) (hC : 0 < C) :
    (ReadPipeLine handle (some mem) C (.available 0) reads s).ret = 0
    ∧ (ReadPipeLine handle (some mem) C (.available 0) reads s).ret ≠ -1
    ∧ (ReadPipeLine handle (some mem) C (.available 0) reads s).os.chan = s.chan
    ∧ (ReadPipeLine handle (some mem) C (.available 0) reads s).os.log
        = s.log ++ [OsCall.peekNamedPipe handle]
    ∧ (ReadPipeLine handle (some mem) C (.available 0) reads s).written = []
    ∧ (ReadPipeLine handle (some mem) C (.available 0) reads s).buffer = some mem := by
  have hg : ¬ (handle = 0 ∨ handle = INVALID_HANDLE_VALUE ∨ C ≤ 0) := by
    rintro (h | h | h)
    · exact h0 h
    · exact h1 h
    · omega
  simp [ReadPipeLine, if_neg hg, PeekNamedPipe, Os.record]

/-- C3: with a valid handle, a non-null buffer and a positive capacity, when the availability
query succeeds and reports zero bytes, `ReadPipeLine` returns `0` (not `-1`), the channel is
as before, and the only call issued is the query: no read is attempted.  The buffer is not
touched either. -/
theorem C3_zero_available_returns_zero (handle : Int) (mem : Nat → Nat) (C : Int)
    (reads : Nat → ReadOutcome) (s : Os)
    (h0 : handle ≠ 0) (h1 : handle ≠ INVALID_HANDLE_VALUE) (hC : 0 < C) :
    (ReadPipeLine handle (some mem) C (.available 0) reads s).ret = 0
    ∧ (ReadPipeLine handle (some mem) C (.available 0) reads s).ret ≠ -1
    ∧ (ReadPipeLine handle (some mem) C (.available 0) reads s).os.chan = s.chan
    ∧ (ReadPipeLine handle (some mem) C (.available 0) reads s).os.log
        = s.log ++ [OsCall.peekNamedPipe handle]
    ∧ (ReadPipeLine handle (some mem) C (.available 0) reads s).written = []
    ∧ (ReadPipeLine handle (some mem) C (.available 0) reads s).buffer = some mem :=
  ReadPipeLine_zero_available handle mem C reads s h0 h1 hC

/-- C3, at a channel that holds bytes the query does not report yet. -/
theorem C3_zero_available_witness :
    (ReadPipeLine 1 (some (fun _ => 7)) 1024 (.available 0) allData (Os.fresh [97, 10])).ret = 0
    ∧ (ReadPipeLine 1 (some (fun _ => 7)) 1024 (.available 0) allData
        (Os.fresh [97, 10])).ret ≠ -1
    ∧ (ReadPipeLine 1 (some (fun _ => 7)) 1024 (.available 0) allData
        (Os.fresh [97, 10])).os.chan = (Os.fresh [97, 10]).chan
    ∧ (ReadPipeLine 1 (some (fun _ => 7)) 1024 (.available 0) allData
        (Os.fresh [97, 10])).os.log = (Os.fresh [97, 10]).log ++ [OsCall.peekNamedPipe 1]
    ∧ (ReadPipeLine 1 (some (fun _ => 7)) 1024 (.available 0) allData
        (Os.fresh [97, 10])).written = []
    ∧ (ReadPipeLine 1 (some (fun _ => 7)) 1024 (.available 0) allData
        (Os.fresh [97, 10])).buffer = some (fun _ => 7) :=
  C3_zero_available_returns_zero 1 (fun _ => 7) 1024 allData (Os.fresh [97, 10])
    (by decide) (by decide) (by decide)

/-! ## C5: the channel stops in the middle of a line -/

/-- C5, as stated, fails: the query reports 5 bytes but the channel yields only `ab`; with
capacity 8 the call returns 2 and hands `ab` back, terminated, keeping nothing.  When `c\n`
arrives afterwards, the next call returns `c\n` alone, not joined with `ab`. -/
theorem C5_stalled_counterexample :
    (ReadPipeLine 1 (some (fun _ => 7)) 8 (.available 5) allData (Os.fresh [97, 98])).ret = 2
    ∧ (ReadPipeLine 1 (some (fun _ => 7)) 8 (.available 5) allData
        (Os.fresh [97, 98])).buffer.map (fun b => bytesOf b 3) = some [97, 98, 0]
    ∧ (ReadPipeLine 1 (some (fun _ => 7)) 8 (.available 5) allData (Os.fresh [97, 98])).os.chan
        = []
    ∧ (ReadPipeLine 1 (some (fun _ => 7)) 8 (.available 2) allData
        { (ReadPipeLine 1 (some (fun _ => 7)) 8 (.available 5) allData
            (Os.fresh [97, 98])).os with chan := [99, 10] }).ret = 2
    ∧ (ReadPipeLine 1 (some (fun _ => 7)) 8 (.available 2) allData
        { (ReadPipeLine 1 (some (fun _ => 7)) 8 (.available 5) allData
            (Os.fresh [97, 98])).os with chan := [99, 10] }).buffer.map
          (fun b => bytesOf b 3) = some [99, 10, 0] := by
  decide

/-- C5 (amended): when the channel stops delivering after `k ≥ 1` bytes with no newline
among them and `k < capacity - 1` (the next read fails, reports zero bytes, or finds the
channel empty), `ReadPipeLine` hands these `k` bytes back as the result of this very call:
it returns `k`, the buffer holds the `k` bytes followed by the `0` terminator, and the
channel is left with what was not read.  Nothing is kept for a later call. -/
theorem C5_stalled_line_returned_at_once (handle : Int) (mem : Nat → Nat) (C : Int) (n : Nat)
    (reads : Nat → ReadOutcome) (s : Os) (part rest : List Nat)
    (h0 : handle ≠ 0) (h1 : handle ≠ INVALID_HANDLE_VALUE) (hn : n ≠ 0)
    (hc : s.chan = part ++ rest) (hnl : NL ∉ part) (hk : 1 ≤ part.length)
    (hcap : ((part.length : Nat) : Int) < C - 1)
    (hr : ∀ i, i < part.length → reads i = .data)
    (hstall : reads part.length ≠ .data ∨ rest = []) :
    (ReadPipeLine handle (some mem) C (.available n) reads s).ret = (part.length : Int)
    ∧ (ReadPipeLine handle (some mem) C (.available n) reads s).buffer.map
        (fun b => bytesOf b (part.length + 1)) = some (part ++ [0])
    ∧ (ReadPipeLine handle (some mem) C (.available n) reads s).os.chan = rest := by
  rw [ReadPipeLine_stall handle mem C n reads s part rest h0 h1 hn hc hnl hr hcap hstall
    (fun _ => hk)]
  refine ⟨by simp [terminate, advance, entry], ?_, by simp [terminate, advance, entry, Os.record]⟩
  simp [terminate, advance, entry, bytesOf_terminated]

/-- C5 (amended), at a channel holding `ab` while 5 bytes were reported, capacity 8. -/
theorem C5_stalled_witness :
    (ReadPipeLine 1 (some (fun _ => 7)) 8 (.available 5) allData (Os.fresh [97, 98])).ret
      = (([97, 98] : List Nat).length : Int)
    ∧ (ReadPipeLine 1 (some (fun _ => 7)) 8 (.available 5) allData
        (Os.fresh [97, 98])).buffer.map (fun b => bytesOf b (([97, 98] : List Nat).length + 1))
      = some ([97, 98] ++ [0])
    ∧ (ReadPipeLine 1 (some (fun _ => 7)) 8 (.available 5) allData (Os.fresh [97, 98])).os.chan
      = [] :=
  C5_stalled_line_returned_at_once 1 (fun _ => 7) 8 5 allData (Os.fresh [97, 98]) [97, 98] []
    (by decide) (by decide) (by decide) rfl (by decide) (by decide) (by decide)
    (fun _ _ => rfl) (Or.inr rfl)

/-! ## The read loop under arbitrary answers of the channel -/

theorem LoopInv_done_os (C : Int) (v : LoopVars) (os1 : Os) (h : os1.chan = v.os.chan) :
    LoopInv C v (.done { v with os := os1 }) := by
  refine ⟨le_refl _, ?_, ?_, ?_, ?_, ?_⟩
  · simp [LoopExit.vars]
  · simp [LoopExit.vars, h]
  · intro j _; rfl
  · intro h; exact h
  · intro r v1 h; cases h

theorem LoopInv_returned (C : Int) (v : LoopVars) (os1 : Os) (h : os1.chan = v.os.chan)
    (ht : v.totalBytesRead = 0) : LoopInv C v (.returned (-1) { v with os := os1 }) := by
  refine ⟨le_refl _, ?_, ?_, ?_, ?_, ?_⟩
  · simp [LoopExit.vars]
  · simp [LoopExit.vars, h]
  · intro j _; rfl
  · intro h; exact h
  · intro r v1 h
    cases h
    exact ⟨rfl, ht⟩

theorem LoopInv_step (C : Int) (v : LoopVars) (b : Nat) (tl : List Nat) (os1 : Os)
    (e : LoopExit) (hc : v.os.chan = b :: tl) (h1 : os1.chan = tl)
    (hlt : (v.totalBytesRead : Int) < C - 1)
    (h : LoopInv C
      { totalBytesRead := v.totalBytesRead + 1
        buffer := store v.buffer v.totalBytesRead b
        written := v.written ++ [v.totalBytesRead]
        os := os1 } e) :
    LoopInv C v e := by
  obtain ⟨i1, i2, i3, i4, i5, i6⟩ := h
  simp only at i1 i2 i3 i4 i5
  obtain ⟨k, hk⟩ : ∃ k, e.vars.totalBytesRead = v.totalBytesRead + 1 + k :=
    ⟨e.vars.totalBytesRead - (v.totalBytesRead + 1), by omega⟩
  have e1 : e.vars.totalBytesRead - (v.totalBytesRead + 1) = k := by omega
  have e2 : e.vars.totalBytesRead - v.totalBytesRead = k + 1 := by omega
  have hb : e.vars.buffer v.totalBytesRead = b := by
    rw [i4 v.totalBytesRead (Or.inl (Nat.lt_succ_self _))]; simp [store]
  refine ⟨by omega, ?_, ?_, ?_, ?_, i6⟩
  · rw [i2, e1, e2, List.range'_succ, List.append_assoc]; rfl
  · rw [hc, e2, List.range'_succ, List.map_cons, hb, List.cons_append, ← e1, ← i3, h1]
  · intro j hj
    rw [i4 j (by omega)]
    have : j ≠ v.totalBytesRead := by omega
    simp [store, this]
  · intro _; exact i5 (by push_cast; omega)

theorem readLoop_inv (hPipe : Int) (C : Int) :
    ∀ (fuel : Nat) (reads : Nat → ReadOutcome) (v : LoopVars),
      LoopInv C v (readLoop hPipe C fuel reads v) := by
  intro fuel
  induction fuel with
  | zero => intro reads v; exact LoopInv_done_os C v v.os rfl
  | succ f ih =>
    intro reads v
    rw [readLoop]
    by_cases hlt : (v.totalBytesRead : Int) < C - 1
    · rw [if_pos hlt]
      cases hk : reads 0 with
      | failed =>
        by_cases ht : v.totalBytesRead > 0
        · simp only [ReadFile, Bool.not_false, if_true, ht]
          exact LoopInv_done_os C v _ rfl
        · simp only [ReadFile, Bool.not_false, if_true, ht, if_false]
          exact LoopInv_returned C v _ rfl (by omega)
      | noData =>
        simp only [ReadFile, Bool.not_true, Bool.false_eq_true, if_false, if_true]
        exact LoopInv_done_os C v _ rfl
      | data =>
        cases hc : v.os.chan with
        | nil =>
          simp only [ReadFile, hc, Bool.not_true, Bool.false_eq_true, if_false, if_true]
          exact LoopInv_done_os C v _ rfl
        | cons b tl =>
          rw [ReadFile_data_cons hPipe v.os b tl hc]
          simp only [Bool.not_true, Bool.false_eq_true, if_false, one_ne_zero]
          by_cases hb : b = NL
          · rw [if_pos hb]
            exact LoopInv_step C v b tl _ _ hc rfl hlt (LoopInv_done_os C _ _ rfl)
          · rw [if_neg hb]
            exact LoopInv_step C v b tl _ _ hc rfl hlt (ih _ _)
    · rw [if_neg hlt]
      exact LoopInv_done_os C v v.os rfl

/-- The iteration bound handed to the loop by `ReadPipeLine` is never what stops it: one
more iteration allowed changes nothing once the bound covers `bufferSize - 1 -
totalBytesRead`. -/
theorem readLoop_bound_irrelevant (hPipe : Int) (C : Int) :
    ∀ (fuel : Nat) (reads : Nat → ReadOutcome) (v : LoopVars),
      (C - 1 - (v.totalBytesRead : Int)).toNat ≤ fuel →
      readLoop hPipe C (fuel + 1) reads v = readLoop hPipe C fuel reads v := by
  intro fuel
  induction fuel with
  | zero =>
    intro reads v h
    have hlt : ¬ (v.totalBytesRead : Int) < C - 1 := by omega
    rw [readLoop_stop hPipe C _ reads v hlt, readLoop_stop hPipe C _ reads v hlt]
  | succ f ih =>
    intro reads v h
    rw [readLoop, readLoop.eq_def hPipe C (f + 1)]
    by_cases hlt : (v.totalBytesRead : Int) < C - 1
    · simp only [if_pos hlt]
      rw [ih]
      simp only; push_cast; omega
    · simp only [if_neg hlt]

theorem ReadPipeLine_first_byte (handle : Int) (mem : Nat → Nat) (C : Int) (n : Nat)
    (reads : Nat → ReadOutcome) (s : Os) (b : Nat) (tl : List Nat)
    (h0 : handle ≠ 0) (h1 : handle ≠ INVALID_HANDLE_VALUE) (hC : 2 ≤ C) (hn : n ≠ 0)
    (hc : s.chan = b :: tl) (hr : reads 0 = .data) :
    0 < (ReadPipeLine handle (some mem) C (.available n) reads s).ret := by
  rw [ReadPipeLine_enter handle mem C n reads s h0 h1 (by omega) hn]
  obtain ⟨f, hf⟩ : ∃ f, (C - 1).toNat = f + 1 := ⟨(C - 1).toNat - 1, by omega⟩
  have hlt : ((entry handle mem s).totalBytesRead : Int) < C - 1 := by
    simp only [entry]; push_cast; omega
  rw [hf, readLoop, if_pos hlt, hr,
    ReadFile_data_cons handle (entry handle mem s).os b tl (by simpa [entry, Os.record] using hc)]
  simp only [Bool.not_true, Bool.false_eq_true, if_false, one_ne_zero]
  by_cases hb : b = NL
  · rw [if_pos hb]; simp [terminate, entry]
  · rw [if_neg hb]
    have inv := readLoop_inv handle C f (fun k => reads (k + 1))
      { totalBytesRead := (entry handle mem s).totalBytesRead + 1
        buffer := store (entry handle mem s).buffer (entry handle mem s).totalBytesRead b
        written := (entry handle mem s).written ++ [(entry handle mem s).totalBytesRead]
        os := { (entry handle mem s).os.record (.readFile handle) with chan := tl } }
    revert inv
    generalize readLoop handle C f _ _ = e
    intro inv
    obtain ⟨i1, -, -, -, -, i6⟩ := inv
    cases e with
    | done v =>
      simp only [LoopExit.vars, entry] at i1
      simp only [terminate]; omega
    | returned r v =>
      have := (i6 r v rfl).2
      simp only [LoopExit.vars, entry] at i1
      omega

theorem ReadPipeLine_first_failed (handle : Int) (mem : Nat → Nat) (C : Int) (n : Nat)
    (reads : Nat → ReadOutcome) (s : Os)
    (h0 : handle ≠ 0) (h1 : handle ≠ INVALID_HANDLE_VALUE) (hC : 2 ≤ C) (hn : n ≠ 0)
    (hr : reads 0 = .failed) :
    (ReadPipeLine handle (some mem) C (.available n) reads s).ret = -1 := by
  rw [ReadPipeLine_enter handle mem C n reads s h0 h1 (by omega) hn]
  obtain ⟨f, hf⟩ : ∃ f, (C - 1).toNat = f + 1 := ⟨(C - 1).toNat - 1, by omega⟩
  have hlt : ((entry handle mem s).totalBytesRead : Int) < C - 1 := by
    simp only [entry]; push_cast; omega
  rw [hf, readLoop, if_pos hlt, hr]
  simp [ReadFile, entry]

theorem ReadPipeLine_peek_failed (handle : Int) (buffer : Option (Nat → Nat)) (C : Int)
    (reads : Nat → ReadOutcome) (s : Os) :
    (ReadPipeLine handle buffer C .failed reads s).ret = -1
    ∧ (ReadPipeLine handle buffer C .failed reads s).written = [] := by
  cases buffer with
  | none => simp [ReadPipeLine]
  | some mem =>
    by_cases hg : handle = 0 ∨ handle = INVALID_HANDLE_VALUE ∨ C ≤ 0
    · simp [ReadPipeLine, hg]
    · simp [ReadPipeLine, hg, PeekNamedPipe]

/-! ## C4: when the result is 0 -/

/-- C4, as stated, fails at capacity 1: one byte is available and would be delivered, yet
`ReadPipeLine` returns `0`; no read is attempted and the byte stays in the channel. -/
theorem C4_capacity_one_counterexample :
    (ReadPipeLine 1 (some (fun _ => 7)) 1 (.available 1) allData (Os.fresh [97])).ret = 0
    ∧ ¬ 0 < (ReadPipeLine 1 (some (fun _ => 7)) 1 (.available 1) allData (Os.fresh [97])).ret
    ∧ (ReadPipeLine 1 (some (fun _ => 7)) 1 (.available 1) allData (Os.fresh [97])).os.chan
        = [97]
    ∧ (ReadPipeLine 1 (some (fun _ => 7)) 1 (.available 1) allData (Os.fresh [97])).os.log
        = [OsCall.peekNamedPipe 1] := by
  decide

/-- C4 (amended): for a valid handle, a non-null buffer and every capacity of at least 2, if
the query reports a byte, the channel holds one and the first read delivers it,
`ReadPipeLine` returns a value `> 0`; and it returns `0` only when no byte was to be had:
the query reported zero bytes, or the channel was empty, or the first read reported zero
bytes. -/
theorem C4_zero_means_no_data (handle : Int) (mem : Nat → Nat) (C : Int) (peek : PeekOutcome)
    (reads : Nat → ReadOutcome) (s : Os)
    (h0 : handle ≠ 0) (h1 : handle ≠ INVALID_HANDLE_VALUE) (hC : 2 ≤ C) :
    (∀ n, peek = .available n → n ≠ 0 → s.chan ≠ [] → reads 0 = .data →
      0 < (ReadPipeLine handle (some mem) C peek reads s).ret)
    ∧ ((ReadPipeLine handle (some mem) C peek reads s).ret = 0 →
      peek = .available 0 ∨ s.chan = [] ∨ reads 0 = .noData) := by
  have key : ∀ n, peek = .available n → n ≠ 0 → s.chan ≠ [] → reads 0 = .data →
      0 < (ReadPipeLine handle (some mem) C peek reads s).ret := by
    intro n hp hn hc hr
    subst hp
    cases hch : s.chan with
    | nil => exact absurd hch hc
    | cons b tl => exact ReadPipeLine_first_byte handle mem C n reads s b tl h0 h1 hC hn hch hr
  refine ⟨key, ?_⟩
  intro hz
  cases peek with
  | failed =>
    have := (ReadPipeLine_peek_failed handle (some mem) C reads s).1
    omega
  | available n =>
    by_cases hn : n = 0
    · subst hn; exact Or.inl rfl
    · right
      by_cases hc : s.chan = []
      · exact Or.inl hc
      · right
        cases hr : reads 0 with
        | noData => rfl
        | failed =>
          have := ReadPipeLine_first_failed handle mem C n reads s h0 h1 hC hn hr
          omega
        | data =>
          have := key n rfl hn hc hr
          omega

/-- C4 (amended), at capacity 2 with the byte `a` waiting. -/
theorem C4_zero_means_no_data_witness :
    0 < (ReadPipeLine 1 (some (fun _ => 7)) 2 (.available 1) allData (Os.fresh [97])).ret :=
  (C4_zero_means_no_data 1 (fun _ => 7) 2 (.available 1) allData (Os.fresh [97])
    (by decide) (by decide) (by decide)).1 1 rfl (by decide) (by decide) rfl

/-! ## C10: the caller's buffer -/

/-- C10, as stated, fails when nothing is available: the call returns `0`, which is not `-1`,
but `buffer[0]` is not the terminator; the buffer, filled with `x` before the call, has not
been touched. -/
theorem C10_no_terminator_counterexample :
    (ReadPipeLine 1 (some (fun _ => 120)) 4 (.available 0) allData (Os.fresh [])).ret = 0
    ∧ (ReadPipeLine 1 (some (fun _ => 120)) 4 (.available 0) allData (Os.fresh [])).ret ≠ -1
    ∧ (ReadPipeLine 1 (some (fun _ => 120)) 4 (.available 0) allData
        (Os.fresh [])).buffer.map (fun b => b 0) = some 120
    ∧ (ReadPipeLine 1 (some (fun _ => 120)) 4 (.available 0) allData
        (Os.fresh [])).buffer.map (fun b => b 0) ≠ some 0 := by
  decide

/-- C10 (amended): for every channel content, every answer of the query and of the
individual reads, and every capacity `C ≥ 1` with a valid handle and a non-null buffer,
every buffer index `ReadPipeLine` stores to is `< C`; when the result `n` is not `-1` it
satisfies `0 ≤ n ≤ C - 1`, `buffer[0..n)` are the bytes taken from the channel, and the
buffer positions above `n` are as before the call; `buffer[n]` is the `0` terminator
whenever the query reported at least one byte, while on a report of zero bytes the result
is `0` and the buffer is left as it was, `buffer[0]` included. -/
theorem C10_buffer_never_exceeded (handle : Int) (mem : Nat → Nat) (C : Int)
    (peek : PeekOutcome) (reads : Nat → ReadOutcome) (s : Os)
    (h0 : handle ≠ 0) (h1 : handle ≠ INVALID_HANDLE_VALUE) (hC : 1 ≤ C) :
    (∀ i ∈ (ReadPipeLine handle (some mem) C peek reads s).written, (i : Int) < C)
    ∧ ((ReadPipeLine handle (some mem) C peek reads s).ret ≠ -1 →
      ∃ (out : Nat → Nat) (n : Nat),
        (ReadPipeLine handle (some mem) C peek reads s).buffer = some out
        ∧ (ReadPipeLine handle (some mem) C peek reads s).ret = (n : Int)
        ∧ (n : Int) ≤ C - 1
        ∧ s.chan = bytesOf out n ++ (ReadPipeLine handle (some mem) C peek reads s).os.chan
        ∧ (∀ i, n < i → out i = mem i)
        ∧ (peek ≠ .available 0 → out n = 0)
        ∧ (peek = .available 0 → n = 0 ∧ ∀ i, out i = mem i)) := by
  cases peek with
  | failed =>
    have h := ReadPipeLine_peek_failed handle (some mem) C reads s
    refine ⟨?_, fun hne => absurd h.1 hne⟩
    rw [h.2]; intro i hi; cases hi
  | available n =>
    by_cases hn : n = 0
    · subst hn
      obtain ⟨r1, -, r3, -, r5, r6⟩ :=
        ReadPipeLine_zero_available handle mem C reads s h0 h1 (by omega)
      refine ⟨?_, fun _ => ⟨mem, 0, r6, by simpa using r1, by omega, ?_, fun _ _ => rfl,
        fun h => absurd rfl h, fun _ => ⟨rfl, fun _ => rfl⟩⟩⟩
      · rw [r5]; intro i hi; cases hi
      · simp [bytesOf, r3]
    · rw [ReadPipeLine_enter handle mem C n reads s h0 h1 (by omega) hn]
      have inv := readLoop_inv handle C (C - 1).toNat reads (entry handle mem s)
      revert inv
      generalize readLoop handle C (C - 1).toNat reads (entry handle mem s) = e
      intro inv
      obtain ⟨-, i2, i3, i4, i5, i6⟩ := inv
      have hcap := i5 (by simp only [entry]; push_cast; omega)
      cases e with
      | returned r v =>
        have hr := i6 r v rfl
        refine ⟨?_, fun hne => absurd hr.1 hne⟩
        simp only [LoopExit.vars, entry, hr.2, List.nil_append] at i2
        simp [i2]
      | done v =>
        simp only [LoopExit.vars, entry, List.nil_append, Nat.sub_zero] at i2 i3 i4 hcap
        refine ⟨?_, fun _ => ⟨store v.buffer v.totalBytesRead 0, v.totalBytesRead, rfl, rfl,
          hcap, ?_, ?_, fun _ => by simp [store], fun h => absurd (by cases h; rfl) hn⟩⟩
        · intro i hi
          simp only [terminate, i2, List.mem_append, List.mem_range'_1, List.mem_singleton] at hi
          omega
        · have hb : bytesOf (store v.buffer v.totalBytesRead 0) v.totalBytesRead
              = (List.range' 0 v.totalBytesRead).map v.buffer := by
            rw [bytesOf, List.range_eq_range']
            apply List.map_congr_left
            intro i hi
            have : i ≠ v.totalBytesRead := by
              simp only [List.mem_range'_1] at hi; omega
            simp [store, this]
          simp only [terminate, hb]
          simpa [Os.record] using i3
        · intro i hi
          have : i ≠ v.totalBytesRead := by omega
          simp only [store, if_neg this]
          exact i4 i (Or.inr (by omega))

/-- C10 (amended), at the line `hi\n` with capacity 3: the stores went to indices below 3,
the result is 2, and the buffer holds `hi` and the terminator. -/
theorem C10_buffer_never_exceeded_witness :
    (∀ i ∈ (ReadPipeLine 1 (some (fun _ => 7)) 3 (.available 3) allData
      (Os.fresh [104, 105, 10])).written, (i : Int) < 3)
    ∧ ∃ (out : Nat → Nat) (n : Nat),
        (ReadPipeLine 1 (some (fun _ => 7)) 3 (.available 3) allData
          (Os.fresh [104, 105, 10])).buffer = some out
        ∧ (ReadPipeLine 1 (some (fun _ => 7)) 3 (.available 3) allData
          (Os.fresh [104, 105, 10])).ret = (n : Int)
        ∧ (n : Int) ≤ 3 - 1
        ∧ (Os.fresh [104, 105, 10]).chan = bytesOf out n
            ++ (ReadPipeLine 1 (some (fun _ => 7)) 3 (.available 3) allData
              (Os.fresh [104, 105, 10])).os.chan
        ∧ (∀ i, n < i → out i = (fun _ => 7) i)
        ∧ (PeekOutcome.available 3 ≠ .available 0 → out n = 0)
        ∧ (PeekOutcome.available 3 = .available 0 → n = 0 ∧ ∀ i, out i = (fun _ => 7) i) :=
  have h := C10_buffer_never_exceeded 1 (fun _ => 7) 3 (.available 3) allData
    (Os.fresh [104, 105, 10]) (by decide) (by decide) (by decide)
  ⟨h.1, h.2 (by decide)⟩

/-! ## C6: argument validation -/

/-- C6: `WritePipeW` and `WritePipe` return `-1` whenever the handle is `0` or the invalid
sentinel or the text pointer is null, and `ReadPipeLine` returns `-1` whenever the handle is
`0` or the sentinel, the buffer is null, or the capacity is `≤ 0`.  In each case the world is
exactly as before (no call has been added to the log, the channel and the bytes sent are
unchanged), and `ReadPipeLine` has stored nothing into the caller's buffer. -/
theorem C6_validation_precedes_io :
    (∀ (handle : Int) (wdata : Option (List Nat)) (conv : Converter) (alloc : Bool)
        (wo : WriteOutcome) (s : Os),
        handle = 0 ∨ handle = INVALID_HANDLE_VALUE ∨ wdata = none →
        WritePipeW handle wdata conv alloc wo s = (-1, s))
    ∧ (∀ (handle : Int) (data : Option (List Nat)) (wo : WriteOutcome) (s : Os),
        handle = 0 ∨ handle = INVALID_HANDLE_VALUE ∨ data = none →
        WritePipe handle data wo s = (-1, s))
    ∧ (∀ (handle : Int) (buffer : Option (Nat → Nat)) (C : Int) (peek : PeekOutcome)
        (reads : Nat → ReadOutcome) (s : Os),
        handle = 0 ∨ handle = INVALID_HANDLE_VALUE ∨ buffer = none ∨ C ≤ 0 →
        (ReadPipeLine handle buffer C peek reads s).ret = -1
        ∧ (ReadPipeLine handle buffer C peek reads s).os = s
        ∧ (ReadPipeLine handle buffer C peek reads s).written = []
        ∧ (ReadPipeLine handle buffer C peek reads s).buffer = buffer) := by
  refine ⟨?_, ?_, ?_⟩
  · intro handle wdata conv alloc wo s h
    cases wdata with
    | none => rfl
    | some w =>
      have hg : handle = 0 ∨ handle = INVALID_HANDLE_VALUE := by
        rcases h with h | h | h
        · exact Or.inl h
        · exact Or.inr h
        · cases h
      simp only [WritePipeW, if_pos hg]
  · intro handle data wo s h
    cases data with
    | none => rfl
    | some bytes =>
      have hg : handle = 0 ∨ handle = INVALID_HANDLE_VALUE := by
        rcases h with h | h | h
        · exact Or.inl h
        · exact Or.inr h
        · cases h
      simp only [WritePipe, if_pos hg]
  · intro handle buffer C peek reads s h
    cases buffer with
    | none => exact ⟨rfl, rfl, rfl, rfl⟩
    | some mem =>
      have hg : handle = 0 ∨ handle = INVALID_HANDLE_VALUE ∨ C ≤ 0 := by
        rcases h with h | h | h | h
        · exact Or.inl h
        · exact Or.inr (Or.inl h)
        · cases h
        · exact Or.inr (Or.inr h)
      simp only [ReadPipeLine, if_pos hg, and_self]

/-- C6, at a write through handle `0`, a write of a null text, and a read with capacity `0`. -/
theorem C6_validation_witness :
    WritePipeW 0 (some [104, 105]) asciiConverter true (.accepted 2) (Os.fresh [97])
      = (-1, Os.fresh [97])
    ∧ WritePipe 5 none (.accepted 2) (Os.fresh [97]) = (-1, Os.fresh [97])
    ∧ ((ReadPipeLine 5 (some (fun _ => 7)) 0 (.available 1) allData (Os.fresh [97])).ret = -1
      ∧ (ReadPipeLine 5 (some (fun _ => 7)) 0 (.available 1) allData (Os.fresh [97])).os
        = Os.fresh [97]
      ∧ (ReadPipeLine 5 (some (fun _ => 7)) 0 (.available 1) allData (Os.fresh [97])).written
        = []
      ∧ (ReadPipeLine 5 (some (fun _ => 7)) 0 (.available 1) allData (Os.fresh [97])).buffer
        = some (fun _ => 7)) :=
  ⟨C6_validation_precedes_io.1 0 (some [104, 105]) asciiConverter true (.accepted 2)
      (Os.fresh [97]) (Or.inl rfl),
    C6_validation_precedes_io.2.1 5 none (.accepted 2) (Os.fresh [97]) (Or.inr (Or.inr rfl)),
    C6_validation_precedes_io.2.2 5 (some (fun _ => 7)) 0 (.available 1) allData (Os.fresh [97])
      (Or.inr (Or.inr (Or.inr (by decide))))⟩


/-! ## C7: what a write transmits and returns -/

theorem toDWORD_natCast (k : Nat) (h : k < 2 ^ 32) : toDWORD (k : Int) = k := by
  unfold toDWORD; omega

theorem toInt32_small (k : Nat) (h : k < 2 ^ 31) : toInt32 k = (k : Int) := by
  have h1 : k % 2 ^ 32 = k := Nat.mod_eq_of_lt (by omega)
  unfold toInt32
  rw [h1, if_pos h]

theorem take_strlen (bytes : List Nat) : bytes.take (strlen bytes) = cstr bytes := by
  unfold strlen cstr
  induction bytes with
  | nil => rfl
  | cons b bs ih =>
    by_cases hb : (b != 0) = true
    · simp only [List.takeWhile_cons, hb, if_true, List.length_cons, List.take_succ_cons, ih]
    · simp only [List.takeWhile_cons, hb, if_false, List.length_nil, List.take_zero]
      rfl

/-- What `WritePipe` does past its guard. -/
theorem WritePipe_valid (handle : Int) (bytes : List Nat) (wo : WriteOutcome) (s : Os)
    (h0 : handle ≠ 0) (h1 : handle ≠ INVALID_HANDLE_VALUE) :
    WritePipe handle (some bytes) wo s
      = (if (WriteFile handle bytes (toDWORD (strlen bytes)) wo s).1
          then toInt32 (WriteFile handle bytes (toDWORD (strlen bytes)) wo s).2.1 else -1,
        (WriteFile handle bytes (toDWORD (strlen bytes)) wo s).2.2) := by
  have hg : ¬ (handle = 0 ∨ handle = INVALID_HANDLE_VALUE) := by
    rintro (h | h)
    · exact h0 h
    · exact h1 h
  simp only [WritePipe, if_neg hg]

theorem strlen_letters (k : Nat) : strlen (List.replicate k 65) = k := by
  simp [strlen, cstr, List.takeWhile_replicate]

/-- A string of `k` letters `A`, all of which the kernel accepts. -/
theorem WritePipe_letters (k : Nat) (hk : k < 2 ^ 32) :
    (WritePipe 1 (some (List.replicate k 65)) (.accepted k) (Os.fresh [])).1 = toInt32 k := by
  rw [WritePipe_valid 1 _ _ _ (by decide) (by decide), strlen_letters, toDWORD_natCast k hk]
  simp [WriteFile]

/-- C7, as stated, fails for a text of `2^31` bytes: the kernel accepts all `2^31` bytes
offered, and the `(int)` cast of that count makes `WritePipe` return `-2147483648`. -/
theorem C7_huge_text_counterexample :
    strlen (List.replicate (2 ^ 31) 65) = 2 ^ 31
    ∧ (WritePipe 1 (some (List.replicate (2 ^ 31) 65)) (.accepted (2 ^ 31)) (Os.fresh [])).1
      = -2147483648 :=
  ⟨strlen_letters (2 ^ 31),
    (WritePipe_letters (2 ^ 31) (by norm_num)).trans (by decide)⟩

/-- C7 (amended): for every valid handle, when the write succeeds and the kernel accepts all
bytes offered: `WritePipe`, on a text of fewer than `2^31` bytes, offers exactly the bytes of
the C string before its NUL and returns their count; `WritePipeW` offers exactly the
converter's output without its final byte, the NUL, and returns that count.  The terminator
is neither transmitted nor counted.  If the write fails the result is `-1`. -/
theorem C7_write_returns_count (handle : Int) (h0 : handle ≠ 0)
    (h1 : handle ≠ INVALID_HANDLE_VALUE) :
    (∀ (bytes : List Nat) (n : Nat) (s : Os), strlen bytes < 2 ^ 31 → strlen bytes ≤ n →
      (WritePipe handle (some bytes) (.accepted n) s).1 = (strlen bytes : Int)
      ∧ (WritePipe handle (some bytes) (.accepted n) s).2.sent = s.sent ++ cstr bytes
      ∧ (WritePipe handle (some bytes) (.accepted n) s).2.log
        = s.log ++ [OsCall.writeFile handle (cstr bytes)])
    ∧ (∀ (data : Option (List Nat)) (s : Os), (WritePipe handle data .failed s).1 = -1)
    ∧ (∀ (w : List Nat) (conv : Converter) (n : Nat) (s : Os),
      conv.run (cstr w) ≠ [] → (conv.run (cstr w)).length - 1 ≤ n →
      (WritePipeW handle (some w) conv true (.accepted n) s).1
        = (((conv.run (cstr w)).length - 1 : Nat) : Int)
      ∧ (WritePipeW handle (some w) conv true (.accepted n) s).2.sent
        = s.sent ++ (conv.run (cstr w)).dropLast
      ∧ (WritePipeW handle (some w) conv true (.accepted n) s).2.log
        = s.log ++ [OsCall.wideCharToMultiByte 0,
            OsCall.heapAlloc ((conv.run (cstr w)).length : Int),
            OsCall.wideCharToMultiByte ((conv.run (cstr w)).length : Int),
            OsCall.writeFile handle (conv.run (cstr w)).dropLast,
            OsCall.heapFree])
    ∧ (∀ (wdata : Option (List Nat)) (conv : Converter) (alloc : Bool) (s : Os),
      (WritePipeW handle wdata conv alloc .failed s).1 = -1) := by
  have hg : ¬ (handle = 0 ∨ handle = INVALID_HANDLE_VALUE) := by
    rintro (h | h)
    · exact h0 h
    · exact h1 h
  refine ⟨?_, ?_, ?_, ?_⟩
  · intro bytes n s hlen hn
    rw [WritePipe_valid handle bytes _ s h0 h1, toDWORD_natCast _ (by omega)]
    have hl : (cstr bytes).length = strlen bytes := rfl
    simp only [WriteFile, take_strlen, if_true, hl, Nat.min_eq_right hn,
      toInt32_small _ hlen, List.take_of_length_le (hl ▸ hn), Os.record, true_and]
  · intro data s
    cases data with
    | none => rfl
    | some bytes => rw [WritePipe_valid handle bytes _ s h0 h1]; rfl
  · intro w conv n s hne hn
    have hb := conv.bound (cstr w)
    have hpos : 0 < (conv.run (cstr w)).length := List.length_pos.mpr hne
    have hne0 : ((conv.run (cstr w)).length : Int) ≠ 0 := by omega
    have hnle : ¬ ((conv.run (cstr w)).length : Int) ≤ 0 := by omega
    have hd : toDWORD (((conv.run (cstr w)).length : Int) - 1)
        = (conv.run (cstr w)).length - 1 := by
      unfold toDWORD; omega
    have hl : (List.take ((conv.run (cstr w)).length - 1) (conv.run (cstr w))).length
        = (conv.run (cstr w)).length - 1 := by
      rw [List.length_take]; omega
    simp only [WritePipeW, if_neg hg, WideCharToMultiByte, if_true, if_neg hne0, if_neg hnle,
      le_refl, HeapAlloc, Bool.not_true, Bool.false_eq_true, if_false, hd, WriteFile, hl,
      Nat.min_eq_right hn, toInt32_small _ (by omega : (conv.run (cstr w)).length - 1 < 2 ^ 31),
      List.take_of_length_le (le_of_eq hl |>.trans hn), HeapFree, Os.record,
      List.dropLast_eq_take, List.append_assoc, List.singleton_append, List.cons_append,
      List.nil_append, true_and, and_self]
  · intro wdata conv alloc s
    cases wdata with
    | none => rfl
    | some w =>
      simp only [WritePipeW, if_neg hg, WriteFile, Bool.false_eq_true, if_false]
      split_ifs <;> rfl

/-- C7 (amended), at the text `ping\n`: both writes return exactly 5. -/
theorem C7_write_returns_count_witness :
    (WritePipe 1 (some [112, 105, 110, 103, 10]) (.accepted 5) (Os.fresh [])).1 = 5
    ∧ (WritePipe 1 (some [112, 105, 110, 103, 10]) (.accepted 5) (Os.fresh [])).2.sent
      = [112, 105, 110, 103, 10]
    ∧ (WritePipeW 1 (some [112, 105, 110, 103, 10]) asciiConverter true (.accepted 5)
        (Os.fresh [])).1 = 5
    ∧ (WritePipeW 1 (some [112, 105, 110, 103, 10]) asciiConverter true (.accepted 5)
        (Os.fresh [])).2.sent = [112, 105, 110, 103, 10] :=
  have h := C7_write_returns_count 1 (by decide) (by decide)
  have ha := h.1 [112, 105, 110, 103, 10] 5 (Os.fresh []) (by decide) (by decide)
  have hb := h.2.2.1 [112, 105, 110, 103, 10] asciiConverter 5 (Os.fresh []) (by decide)
    (by decide)
  ⟨ha.1, ha.2.1, hb.1, hb.2.1⟩

/-! ## C8: connecting -/

/-- C8: with the answers of the three steps (wait, open, set byte mode) as inputs,
`ConnectPipe` returns a handle other than the invalid sentinel exactly when the name is not
null and all three steps succeed, and that handle is the one the open produced, now open.
A null name issues no call at all, and a failed wait issues the wait only: no open is
attempted.  When setting the mode fails after a successful open, the calls are wait, open,
set mode and a close of the opened handle, in this order, and the sentinel is returned with
that handle no longer open.  After every failing connect the open handles are those open
before the call, the operating system handing out on open a handle that is not open yet. -/
theorem C8_connect_all_or_nothing (pipeName : Option String) (waitOutcome : Bool)
    (openOutcome : Int) (modeOutcome : Bool) (s : Os) :
    ((ConnectPipe pipeName waitOutcome openOutcome modeOutcome s).1 ≠ INVALID_HANDLE_VALUE ↔
      pipeName ≠ none ∧ waitOutcome = true ∧ openOutcome ≠ INVALID_HANDLE_VALUE
        ∧ modeOutcome = true)
    ∧ ((ConnectPipe pipeName waitOutcome openOutcome modeOutcome s).1 ≠ INVALID_HANDLE_VALUE →
      (ConnectPipe pipeName waitOutcome openOutcome modeOutcome s).1 = openOutcome
      ∧ (ConnectPipe pipeName waitOutcome openOutcome modeOutcome s).2.handles
        = openOutcome :: s.handles)
    ∧ (pipeName = none →
      ConnectPipe pipeName waitOutcome openOutcome modeOutcome s = (INVALID_HANDLE_VALUE, s))
    ∧ (∀ name, pipeName = some name → waitOutcome = false →
      ConnectPipe pipeName waitOutcome openOutcome modeOutcome s
        = (INVALID_HANDLE_VALUE, s.record (.waitNamedPipeW name)))
    ∧ (∀ name, pipeName = some name → waitOutcome = true →
      openOutcome ≠ INVALID_HANDLE_VALUE → modeOutcome = false →
      (ConnectPipe pipeName waitOutcome openOutcome modeOutcome s).1 = INVALID_HANDLE_VALUE
      ∧ (ConnectPipe pipeName waitOutcome openOutcome modeOutcome s).2.log
        = s.log ++ [OsCall.waitNamedPipeW name, OsCall.createFileW name,
            OsCall.setNamedPipeHandleState openOutcome, OsCall.closeHandle openOutcome]
      ∧ openOutcome ∉ (ConnectPipe pipeName waitOutcome openOutcome modeOutcome s).2.handles)
    ∧ ((ConnectPipe pipeName waitOutcome openOutcome modeOutcome s).1 = INVALID_HANDLE_VALUE →
      openOutcome ∉ s.handles →
      (ConnectPipe pipeName waitOutcome openOutcome modeOutcome s).2.handles = s.handles) := by
  cases pipeName with
  | none => simp [ConnectPipe]
  | some name =>
    cases waitOutcome with
    | false => simp [ConnectPipe, WaitNamedPipeW, Os.record]
    | true =>
      by_cases ho : openOutcome = INVALID_HANDLE_VALUE
      · simp [ConnectPipe, WaitNamedPipeW, CreateFileW, Os.record, ho]
      · cases modeOutcome with
        | true =>
          simp [ConnectPipe, WaitNamedPipeW, CreateFileW, SetNamedPipeHandleState, Os.record, ho]
        | false =>
          have hfilter : openOutcome ∉ s.handles →
              s.handles.filter (fun x => x != openOutcome) = s.handles := by
            intro hfresh
            rw [List.filter_eq_self]
            intro x hx
            simp only [bne_iff_ne, ne_eq]
            rintro rfl
            exact hfresh hx
          refine ⟨?_, ?_, ?_, ?_, ?_, ?_⟩
          · simp [ConnectPipe, WaitNamedPipeW, CreateFileW, SetNamedPipeHandleState, ho]
          · simp [ConnectPipe, WaitNamedPipeW, CreateFileW, SetNamedPipeHandleState, ho]
          · simp
          · simp
          · intro n hn _ _ _
            cases hn
            simp [ConnectPipe, WaitNamedPipeW, CreateFileW, SetNamedPipeHandleState,
              CloseHandle, Os.record, ho, List.mem_filter]
          · intro _ hfresh
            simp [ConnectPipe, WaitNamedPipeW, CreateFileW, SetNamedPipeHandleState,
              CloseHandle, Os.record, ho, List.filter_cons, hfilter hfresh]

/-- C8, at a connect whose mode configuration fails after handle 44 was opened, handle 7
being open already. -/
theorem C8_connect_witness :
    (ConnectPipe (some "echo") true 44 false
      { handles := [7], chan := [], sent := [], log := [] }).1 = INVALID_HANDLE_VALUE
    ∧ (ConnectPipe (some "echo") true 44 false
      { handles := [7], chan := [], sent := [], log := [] }).2.handles = [7] :=
  have h := C8_connect_all_or_nothing (some "echo") true 44 false
    { handles := [7], chan := [], sent := [], log := [] }
  have h1 := (h.2.2.2.2.1 "echo" rfl rfl (by decide) rfl).1
  ⟨h1, h.2.2.2.2.2 h1 (by decide)⟩

/-! ## C9: closing -/

/-- C9: `ClosePipe` on handle `0` and on the invalid sentinel issues no call and leaves the
world as it is; on a handle that is not open it leaves the open handles, the channel and
the bytes sent as they are; and for every handle and every world, closing twice leaves the
same open handles, channel and bytes sent as closing once. -/
theorem C9_close_idempotent :
    (∀ s : Os, ClosePipe 0 s = s ∧ ClosePipe INVALID_HANDLE_VALUE s = s)
    ∧ (∀ (h : Int) (s : Os), h ∉ s.handles →
      (ClosePipe h s).handles = s.handles ∧ (ClosePipe h s).chan = s.chan
        ∧ (ClosePipe h s).sent = s.sent)
    ∧ (∀ (h : Int) (s : Os),
      (ClosePipe h (ClosePipe h s)).handles = (ClosePipe h s).handles
      ∧ (ClosePipe h (ClosePipe h s)).chan = (ClosePipe h s).chan
      ∧ (ClosePipe h (ClosePipe h s)).sent = (ClosePipe h s).sent) := by
  refine ⟨fun s => ⟨by simp [ClosePipe], by simp [ClosePipe]⟩, ?_, ?_⟩
  · intro h s hno
    by_cases hg : h = 0 ∨ h = INVALID_HANDLE_VALUE
    · simp [ClosePipe, hg]
    · simp only [ClosePipe, if_neg hg, CloseHandle, CancelIoEx, Os.record, and_self, and_true]
      rw [List.filter_eq_self]
      intro x hx
      simp only [bne_iff_ne, ne_eq]
      rintro rfl
      exact hno hx
  · intro h s
    by_cases hg : h = 0 ∨ h = INVALID_HANDLE_VALUE
    · simp [ClosePipe, hg]
    · simp only [ClosePipe, if_neg hg, CloseHandle, CancelIoEx, Os.record, List.filter_filter,
        Bool.and_self, and_self]

/-- C9, at handle 44: closing it when it is not open, and closing it twice when it is. -/
theorem C9_close_witness :
    ((ClosePipe 44 { handles := [7], chan := [97], sent := [], log := [] }).handles = [7]
      ∧ (ClosePipe 44 { handles := [7], chan := [97], sent := [], log := [] }).chan = [97]
      ∧ (ClosePipe 44 { handles := [7], chan := [97], sent := [], log := [] }).sent = [])
    ∧ (ClosePipe 44 (ClosePipe 44 { handles := [44, 7], chan := [], sent := [], log := [] })).handles
      = (ClosePipe 44 { handles := [44, 7], chan := [], sent := [], log := [] }).handles :=
  ⟨C9_close_idempotent.2.1 44 { handles := [7], chan := [97], sent := [], log := [] }
      (by decide),
    (C9_close_idempotent.2.2 44 { handles := [44, 7], chan := [], sent := [], log := [] }).1⟩


/-! ## C11: what a call consumes is what it returns -/

/-- How `linePrefix` stops: at the first newline, or at `room` bytes, or at the end of
the stream. -/
theorem linePrefix_cases : ∀ (room : Nat) (chan : List Nat),
    (∃ body rest, chan = body ++ NL :: rest ∧ NL ∉ body ∧ body.length + 1 ≤ room
        ∧ linePrefix room chan = body ++ [NL])
    ∨ (∃ pre rest, chan = pre ++ rest ∧ NL ∉ pre ∧ pre.length = room
        ∧ linePrefix room chan = pre)
    ∨ (NL ∉ chan ∧ chan.length < room ∧ linePrefix room chan = chan) := by
  intro room chan
  induction chan generalizing room with
  | nil =>
    cases room with
    | zero => exact Or.inr (Or.inl ⟨[], [], rfl, by simp, rfl, rfl⟩)
    | succ r => exact Or.inr (Or.inr ⟨by simp, by simp, rfl⟩)
  | cons b bs ih =>
    cases room with
    | zero => exact Or.inr (Or.inl ⟨[], b :: bs, rfl, by simp, rfl, rfl⟩)
    | succ r =>
      by_cases hb : b = NL
      · subst hb
        exact Or.inl ⟨[], bs, rfl, by simp, by simp, by simp [linePrefix]⟩
      · have hb2 : NL ≠ b := fun h => hb h.symm
        rcases ih r with ⟨body, rest, h1, h2, h3, h4⟩ | ⟨pre, rest, h1, h2, h3, h4⟩
            | ⟨h1, h2, h3⟩
        · exact Or.inl ⟨b :: body, rest, by simp [h1], by simp [h2, hb2], by simp; omega,
            by simp [linePrefix, hb, h4]⟩
        · exact Or.inr (Or.inl ⟨b :: pre, rest, by simp [h1], by simp [h2, hb2], by simp [h3],
            by simp [linePrefix, hb, h4]⟩)
        · exact Or.inr (Or.inr ⟨by simp [h1, hb2], by simp; omega,
            by simp [linePrefix, hb, h3]⟩)

theorem bytesOf_stored (mem : Nat → Nat) (l : List Nat) :
    bytesOf (store (storeList mem 0 l) l.length 0) l.length = l := by
  apply List.ext_getElem
  · simp [bytesOf]
  · intro i h1 h2
    have h : i ≠ l.length := by omega
    simp [bytesOf, store, h, storeList_apply, h2]

/-- One call on a channel whose reads deliver, the query reporting zero bytes only when
nothing is pending: the call hands back `linePrefix (bufferSize - 1)` of the pending bytes and
leaves the others in the channel. -/
theorem ReadPipeLine_settled (handle : Int) (mem : Nat → Nat) (C : Int) (n : Nat) (s : Os)
    (h0 : handle ≠ 0) (h1 : handle ≠ INVALID_HANDLE_VALUE) (hC : 1 ≤ C)
    (hn : n = 0 → s.chan = []) :
    (ReadPipeLine handle (some mem) C (.available n) allData s).bytes
      = linePrefix (C - 1).toNat s.chan
    ∧ (ReadPipeLine handle (some mem) C (.available n) allData s).ret
      = ((linePrefix (C - 1).toNat s.chan).length : Int)
    ∧ s.chan = linePrefix (C - 1).toNat s.chan
        ++ (ReadPipeLine handle (some mem) C (.available n) allData s).os.chan := by
  by_cases hz : n = 0
  · have hc := hn hz
    subst hz
    obtain ⟨r1, -, r3, -, -, r6⟩ := ReadPipeLine_zero_available handle mem C allData s h0 h1
      (by omega)
    have hl : linePrefix (C - 1).toNat s.chan = [] := by
      rw [hc]; cases (C - 1).toNat <;> rfl
    rw [hl, r1, r3, hc]
    refine ⟨?_, rfl, rfl⟩
    simp [ReadResult.bytes, r6, r1, bytesOf]
  · rcases linePrefix_cases (C - 1).toNat s.chan with ⟨body, rest, c1, c2, c3, c4⟩
        | ⟨pre, rest, c1, c2, c3, c4⟩ | ⟨c1, c2, c3⟩
    · rw [ReadPipeLine_newline handle mem C n allData s body rest h0 h1 hz c1 c2
        (fun _ _ => rfl) (by omega), c4]
      have e := bytesOf_stored mem (body ++ [NL])
      simp only [List.length_append, List.length_singleton] at e
      refine ⟨?_, ?_, ?_⟩
      · simp [ReadResult.bytes, terminate, advance, entry, e]
      · simp [terminate, advance, entry]
      · simp [terminate, advance, entry, c1]
    · rw [ReadPipeLine_full handle mem C n allData s pre rest h0 h1 hz (by omega) c1 c2
        (fun _ _ => rfl) (by omega), c4]
      refine ⟨?_, ?_, ?_⟩
      · simp [ReadResult.bytes, terminate, advance, entry, bytesOf_stored]
      · simp [terminate, advance, entry]
      · simp [terminate, advance, entry, c1]
    · rw [ReadPipeLine_stall handle mem C n allData s s.chan [] h0 h1 hz (by simp) c1
        (fun _ _ => rfl) (by omega) (Or.inr rfl) (fun h => by cases h), c3]
      refine ⟨?_, ?_, ?_⟩
      · simp [ReadResult.bytes, terminate, advance, entry, bytesOf_stored]
      · simp [terminate, advance, entry]
      · simp [terminate, advance, entry, Os.record]


theorem linePrefix_append_drop : ∀ (room : Nat) (chan : List Nat),
    linePrefix room chan ++ chan.drop (linePrefix room chan).length = chan := by
  intro room chan
  induction chan generalizing room with
  | nil => cases room <;> rfl
  | cons b bs ih =>
    cases room with
    | zero => rfl
    | succ r =>
      by_cases hb : b = NL
      · simp [linePrefix, hb]
      · simp [linePrefix, hb, ih r]

theorem linePrefix_stops : ∀ (room : Nat) (chan : List Nat),
    StopsAt room chan (linePrefix room chan) := by
  intro room chan
  rcases linePrefix_cases room chan with ⟨body, rest, -, -, -, c4⟩ | ⟨pre, rest, -, -, c3, c4⟩
      | ⟨-, -, c3⟩
  · exact Or.inl (by rw [c4, List.getLast?_concat])
  · exact Or.inr (Or.inl (by rw [c4, c3]))
  · exact Or.inr (Or.inr c3)

theorem linePrefix_shortest : ∀ (room : Nat) (chan q t : List Nat),
    chan = q ++ t → StopsAt room chan q → (linePrefix room chan).length ≤ q.length := by
  intro room chan
  induction chan generalizing room with
  | nil => intro q t _ _; cases room <;> simp [linePrefix]
  | cons b bs ih =>
    intro q t hq hs
    cases room with
    | zero => simp [linePrefix]
    | succ r =>
      cases q with
      | nil =>
        rcases hs with h | h | h
        · simp at h
        · simp at h
        · cases h
      | cons a q1 =>
        simp only [List.cons_append, List.cons.injEq] at hq
        obtain ⟨hab, hbs⟩ := hq
        subst hab
        by_cases hb : b = NL
        · simp [linePrefix, hb]
        · have hs1 : StopsAt r bs q1 := by
            rcases hs with h | h | h
            · cases q1 with
              | nil => simp at h; exact absurd h hb
              | cons c q2 => exact Or.inl (by simpa using h)
            · exact Or.inr (Or.inl (by simpa using h))
            · exact Or.inr (Or.inr (by simpa using h))
          have := ih r q1 t hbs hs1
          simp [linePrefix, hb]; omega

theorem linePrefix_newline_last : ∀ (room : Nat) (chan : List Nat),
    NL ∉ (linePrefix room chan).dropLast := by
  intro room chan
  rcases linePrefix_cases room chan with ⟨body, rest, -, c2, -, c4⟩ | ⟨pre, rest, -, c2, -, c4⟩
      | ⟨c1, -, c3⟩
  · rw [c4, List.dropLast_concat]; exact c2
  · rw [c4]; exact fun h => c2 (List.mem_of_mem_dropLast h)
  · rw [c3]; exact fun h => c1 (List.mem_of_mem_dropLast h)

theorem linePrefixes_flatten : ∀ (rooms : List Nat) (stream : List Nat),
    (linePrefixes rooms stream).flatten ++ afterPrefixes rooms stream = stream := by
  intro rooms
  induction rooms with
  | nil => intro stream; rfl
  | cons room rooms ih =>
    intro stream
    simp only [linePrefixes, afterPrefixes, List.flatten_cons, List.append_assoc, ih]
    exact linePrefix_append_drop room stream

/-- A sequence of calls on a settled channel hands back the beginnings `linePrefixes`
describes and leaves what `afterPrefixes` describes. -/
theorem readCalls_settled (handle : Int) (h0 : handle ≠ 0) (h1 : handle ≠ INVALID_HANDLE_VALUE) :
    ∀ (calls : List Call) (s : Os), (∀ c ∈ calls, 1 ≤ c.bufferSize) →
      (readCalls handle calls s).1.map ReadResult.bytes
        = linePrefixes (calls.map (fun c => (c.bufferSize - 1).toNat)) s.chan
      ∧ (readCalls handle calls s).2.chan
        = afterPrefixes (calls.map (fun c => (c.bufferSize - 1).toNat)) s.chan := by
  intro calls
  induction calls with
  | nil => intro s _; exact ⟨rfl, rfl⟩
  | cons c cs ih =>
    intro s hv
    obtain ⟨r1, -, r3⟩ := ReadPipeLine_settled handle c.buffer c.bufferSize s.chan.length s
      h0 h1 (hv c (List.mem_cons_self _ _)) (fun h => List.length_eq_zero.mp h)
    have hd : s.chan.drop (linePrefix (c.bufferSize - 1).toNat s.chan).length
        = (ReadPipeLine handle (some c.buffer) c.bufferSize (.available s.chan.length)
            allData s).os.chan :=
      List.append_cancel_left ((linePrefix_append_drop _ _).trans r3)
    obtain ⟨i1, i2⟩ := ih (ReadPipeLine handle (some c.buffer) c.bufferSize
      (.available s.chan.length) allData s).os (fun c1 hc1 => hv c1 (List.mem_cons_of_mem _ hc1))
    refine ⟨?_, ?_⟩
    · simp only [readCalls, List.map_cons, linePrefixes, r1, i1, hd]
    · simp only [readCalls, List.map_cons, afterPrefixes, i2, hd]

theorem linePrefixes_newline_last : ∀ (rooms : List Nat) (stream : List Nat),
    ∀ p ∈ linePrefixes rooms stream, NL ∉ p.dropLast := by
  intro rooms
  induction rooms with
  | nil => intro stream p hp; cases hp
  | cons room rooms ih =>
    intro stream p hp
    simp only [linePrefixes, List.mem_cons] at hp
    rcases hp with hp | hp
    · rw [hp]; exact linePrefix_newline_last room stream
    · exact ih _ p hp

theorem readCalls_length (handle : Int) : ∀ (calls : List Call) (s : Os),
    (readCalls handle calls s).1.length = calls.length := by
  intro calls
  induction calls with
  | nil => intro s; rfl
  | cons c cs ih => intro s; simp only [readCalls, List.length_cons, ih]

/-- C11: `ReadPipeLine` consumes exactly what it returns.  On a valid handle, for every
pending byte stream, with the availability query reporting zero bytes only when nothing is
pending and every read delivering: a call of any capacity `C ≥ 1` hands back the shortest
beginning of the pending stream that ends with a newline, or has length `C - 1`, or is the
whole stream (`linePrefix`, with the proof that it is a stopping place and that no shorter
beginning is one); its result is the length of that beginning; the channel keeps exactly the
bytes after it; and a newline is never anywhere but at the end of what is handed back.
For every sequence of such calls, of arbitrary capacities, every call returns, the results
are the beginnings taken off the stream one after the other, and the results in call order
followed by the bytes still pending are the original stream. -/
theorem C11_reads_consume_what_they_return (handle : Int) (h0 : handle ≠ 0)
    (h1 : handle ≠ INVALID_HANDLE_VALUE) :
    (∀ (mem : Nat → Nat) (C : Int) (n : Nat) (s : Os), 1 ≤ C → (n = 0 → s.chan = []) →
      (ReadPipeLine handle (some mem) C (.available n) allData s).bytes
        = linePrefix (C - 1).toNat s.chan
      ∧ (ReadPipeLine handle (some mem) C (.available n) allData s).ret
        = (((ReadPipeLine handle (some mem) C (.available n) allData s).bytes.length : Nat) : Int)
      ∧ s.chan = (ReadPipeLine handle (some mem) C (.available n) allData s).bytes
          ++ (ReadPipeLine handle (some mem) C (.available n) allData s).os.chan
      ∧ StopsAt (C - 1).toNat s.chan
          (ReadPipeLine handle (some mem) C (.available n) allData s).bytes
      ∧ (∀ q t, s.chan = q ++ t → StopsAt (C - 1).toNat s.chan q →
          (ReadPipeLine handle (some mem) C (.available n) allData s).bytes.length ≤ q.length)
      ∧ NL ∉ (ReadPipeLine handle (some mem) C (.available n) allData s).bytes.dropLast)
    ∧ (∀ (calls : List Call) (s : Os), (∀ c ∈ calls, 1 ≤ c.bufferSize) →
      (readCalls handle calls s).1.length = calls.length
      ∧ (readCalls handle calls s).1.map ReadResult.bytes
        = linePrefixes (calls.map (fun c => (c.bufferSize - 1).toNat)) s.chan
      ∧ ((readCalls handle calls s).1.map ReadResult.bytes).flatten
          ++ (readCalls handle calls s).2.chan = s.chan
      ∧ ∀ r ∈ (readCalls handle calls s).1, NL ∉ r.bytes.dropLast) := by
  refine ⟨?_, ?_⟩
  · intro mem C n s hC hn
    obtain ⟨r1, r2, r3⟩ := ReadPipeLine_settled handle mem C n s h0 h1 hC hn
    rw [r1]
    exact ⟨rfl, r2, r3, linePrefix_stops _ _, linePrefix_shortest _ _,
      linePrefix_newline_last _ _⟩
  · intro calls s hv
    obtain ⟨i1, i2⟩ := readCalls_settled handle h0 h1 calls s hv
    refine ⟨readCalls_length handle calls s, i1, ?_, ?_⟩
    · rw [i1, i2]; exact linePrefixes_flatten _ _
    · intro r hr
      exact linePrefixes_newline_last _ _ r.bytes (i1 ▸ List.mem_map_of_mem _ hr)

/-- C11, at the stream `abcd\ne\nf` read with capacities 4, 1, 8, 8 and 8: the calls hand
back `abc`, nothing, `d\n`, `e\n` and `f`, which put together are the stream, and nothing is
left pending. -/
theorem C11_reads_witness :
    (readCalls 1 [⟨fun _ => 7, 4⟩, ⟨fun _ => 7, 1⟩, ⟨fun _ => 7, 8⟩, ⟨fun _ => 7, 8⟩,
        ⟨fun _ => 7, 8⟩] (Os.fresh [97, 98, 99, 100, 10, 101, 10, 102])).1.map ReadResult.bytes
      = [[97, 98, 99], [], [100, 10], [101, 10], [102]]
    ∧ ((readCalls 1 [⟨fun _ => 7, 4⟩, ⟨fun _ => 7, 1⟩, ⟨fun _ => 7, 8⟩, ⟨fun _ => 7, 8⟩,
        ⟨fun _ => 7, 8⟩] (Os.fresh [97, 98, 99, 100, 10, 101, 10, 102])).1.map
          ReadResult.bytes).flatten
        ++ (readCalls 1 [⟨fun _ => 7, 4⟩, ⟨fun _ => 7, 1⟩, ⟨fun _ => 7, 8⟩, ⟨fun _ => 7, 8⟩,
          ⟨fun _ => 7, 8⟩] (Os.fresh [97, 98, 99, 100, 10, 101, 10, 102])).2.chan
      = [97, 98, 99, 100, 10, 101, 10, 102] :=
  have h := (C11_reads_consume_what_they_return 1 (by decide) (by decide)).2
    [⟨fun _ => 7, 4⟩, ⟨fun _ => 7, 1⟩, ⟨fun _ => 7, 8⟩, ⟨fun _ => 7, 8⟩, ⟨fun _ => 7, 8⟩]
    (Os.fresh [97, 98, 99, 100, 10, 101, 10, 102]) (by decide)
  ⟨h.2.1, h.2.2.1⟩

end EchoPipe
